import Mathlib

/-!
Verification of the transformation-and-validation pipeline of
`people_protocol_skill_builder.py`.

The shallow embedding models:
- JSON values (`Json`) as produced by Python's `json.loads`; numbers are
  modelled as integers (the pipeline never manipulates fractional numbers),
  and objects are association lists with the duplicate-key semantics of
  Python dicts (first position, last value).
- `json.dumps` (`serVal` / `dumps`) and `json.loads` (`parseJson` / `loads`).
  The serializer escapes `"`, `\`, newline, tab and carriage return; the
  parser additionally accepts the other standard single-character escapes.
- Python string operations used by `transform_skill`: `str.strip`
  (`pyStrip`), the `in` operator (`containsSub`) and `str.split`
  (`splitOnSub`), all on `List Char`.
- `transform_skill` itself: prompt construction (`buildPrompt`), the
  three-tier JSON extraction (`extractJson`) and the per-level statement
  validation (`validateSkill`).  The model invocation
  (`client.messages.create` followed by `.content[0].text`) is injected as
  a function from prompt text to response text.
-/

set_option maxRecDepth 16000

/-- JSON values as returned by Python's `json.loads`. -/
inductive Json where
  | null : Json
  | bool (b : Bool) : Json
  | num (n : Int) : Json
  | str (s : String) : Json
  | arr (elems : List Json) : Json
  | obj (fields : List (String × Json)) : Json
deriving Repr

/-- First-match association-list lookup; on the unique-key lists produced by
the parser this is exactly Python `dict.get`. -/
def jlookup : List (String × Json) → String → Option Json
  | [], _ => none
  | (k, v) :: rest, key => if k = key then some v else jlookup rest key

/-- Remove every entry with the given key. -/
def eraseKey : List (String × Json) → String → List (String × Json)
  | [], _ => []
  | (k, v) :: rest, key =>
    if k = key then eraseKey rest key else (k, v) :: eraseKey rest key

/-- Python-dict member insertion for a duplicated key met *earlier* in the
member list: the key keeps its first position while the value of the last
occurrence wins, which matches how `json.loads` builds a `dict`. -/
def consMember (k : String) (v : Json) (ms : List (String × Json)) :
    List (String × Json) :=
  match jlookup ms k with
  | some v' => (k, v') :: eraseKey ms k
  | none => (k, v) :: ms

mutual

/-- `true` when every object inside the value has pairwise distinct keys;
all values produced by the parser satisfy this. -/
def uniqB : Json → Bool
  | .null => true
  | .bool _ => true
  | .num _ => true
  | .str _ => true
  | .arr xs => uniqBL xs
  | .obj ms => uniqBM ms

def uniqBL : List Json → Bool
  | [] => true
  | x :: xs => uniqB x && uniqBL xs

def uniqBM : List (String × Json) → Bool
  | [] => true
  | (k, v) :: ms => !(jlookup ms k).isSome && uniqB v && uniqBM ms

end

/-! ## Python character / string primitives -/

/-- Python `str.strip()` whitespace (ASCII part). -/
def pyIsSpace (c : Char) : Bool :=
  c = ' ' || c = '\t' || c = '\n' || c = '\r' ||
  c = Char.ofNat 11 || c = Char.ofNat 12

/-- Whitespace accepted between JSON tokens by `json.loads`. -/
def jsonWs (c : Char) : Bool :=
  c = ' ' || c = '\t' || c = '\n' || c = '\r'

def skipWs (cs : List Char) : List Char := cs.dropWhile jsonWs

/-- Python `str.strip()` on a character list. -/
def pyStrip (cs : List Char) : List Char :=
  ((cs.dropWhile pyIsSpace).reverse.dropWhile pyIsSpace).reverse

/-- `lpre needle hay`: does `hay` start with `needle`? -/
def lpre : List Char → List Char → Bool
  | [], _ => true
  | _ :: _, [] => false
  | a :: as, b :: bs => (a == b) && lpre as bs

/-- Python's substring operator `needle in hay`. -/
def containsSub : List Char → List Char → Bool
  | [], needle => needle.isEmpty
  | c :: rest, needle => lpre needle (c :: rest) || containsSub rest needle

/-- Worker for `splitOnSub`.  The fuel argument only forces structural
termination; every non-empty separator consumes at least one character
per step, so fuel equal to the input length never runs out. -/
def splitOnAux (sep : List Char) : Nat → List Char → List Char → List (List Char)
  | _, [], acc => [acc.reverse]
  | 0, c :: rest, acc => [acc.reverse ++ c :: rest]
  | f + 1, c :: rest, acc =>
    if lpre sep (c :: rest) = true then
      acc.reverse :: splitOnAux sep f ((c :: rest).drop sep.length) []
    else
      splitOnAux sep f rest (c :: acc)

/-- Python `hay.split(sep)` for a non-empty separator (non-overlapping,
leftmost-first).  Python raises on an empty separator; the code only ever
splits on the fence markers, so that case is mapped to `[hay]`. -/
def splitOnSub (hay sep : List Char) : List (List Char) :=
  match sep with
  | [] => [hay]
  | s :: ss => splitOnAux (s :: ss) hay.length hay []

/-! ## Digits and numbers -/

def digitVal (c : Char) : Nat := c.toNat - '0'.toNat

def digitsToNat (ds : List Char) : Nat :=
  ds.foldl (fun acc c => 10 * acc + digitVal c) 0

/-- Decimal digits of `n`, most significant first; the fuel argument only
forces structural termination and `n + 1` units always suffice. -/
def natToCharsF : Nat → Nat → List Char
  | 0, _ => []
  | f + 1, n =>
    if n < 10 then [Char.ofNat (48 + n)]
    else natToCharsF f (n / 10) ++ [Char.ofNat (48 + n % 10)]

def natToChars (n : Nat) : List Char := natToCharsF (n + 1) n

/-- Decimal rendering of an integer, as `json.dumps` prints it. -/
def intChars (i : Int) : List Char :=
  if i < 0 then '-' :: natToChars i.natAbs else natToChars i.natAbs

/-! ## Serializer: model of Python `json.dumps` (compact separators). -/

def escChar (c : Char) : List Char :=
  if c = '"' then ['\\', '"']
  else if c = '\\' then ['\\', '\\']
  else if c = '\n' then ['\\', 'n']
  else if c = '\t' then ['\\', 't']
  else if c = '\r' then ['\\', 'r']
  else [c]

def escBody : List Char → List Char
  | [] => []
  | c :: cs => escChar c ++ escBody cs

def escString (s : String) : List Char :=
  '"' :: escBody s.data ++ ['"']

def lbrace : Char := Char.ofNat 123
def rbrace : Char := Char.ofNat 125

mutual

def serVal : Json → List Char
  | .null => "null".data
  | .bool true => "true".data
  | .bool false => "false".data
  | .num i => intChars i
  | .str s => escString s
  | .arr xs => '[' :: serElems xs ++ [']']
  | .obj ms => lbrace :: serMembers ms ++ [rbrace]

def serElems : List Json → List Char
  | [] => []
  | [x] => serVal x
  | x :: y :: xs => serVal x ++ ',' :: ' ' :: serElems (y :: xs)

def serMembers : List (String × Json) → List Char
  | [] => []
  | [(k, v)] => escString k ++ ':' :: ' ' :: serVal v
  | (k, v) :: m :: ms =>
    escString k ++ ':' :: ' ' :: serVal v ++ ',' :: ' ' :: serMembers (m :: ms)

end

/-- Model of `json.dumps` (whitespace-insensitive w.r.t. reparsing). -/
def dumps (j : Json) : String := String.mk (serVal j)

/-! ## Parser: model of Python `json.loads`. -/

/-- Single-character string escapes accepted by the JSON grammar
(`\uXXXX` is omitted: the serializer model never produces it). -/
def unescape (c : Char) : Option Char :=
  if c = '"' then some '"'
  else if c = '\\' then some '\\'
  else if c = '/' then some '/'
  else if c = 'n' then some '\n'
  else if c = 't' then some '\t'
  else if c = 'r' then some '\r'
  else if c = 'b' then some (Char.ofNat 8)
  else if c = 'f' then some (Char.ofNat 12)
  else none

/-- Parse the body of a string literal after the opening quote; returns the
decoded characters and the input after the closing quote. -/
def parseStringBody : List Char → Option (List Char × List Char)
  | [] => none
  | c :: rest =>
    if c = '"' then some ([], rest)
    else if c = '\\' then
      match rest with
      | [] => none
      | e :: rest2 =>
        match unescape e with
        | none => none
        | some c2 =>
          match parseStringBody rest2 with
          | none => none
          | some (s, r) => some (c2 :: s, r)
    else
      match parseStringBody rest with
      | none => none
      | some (s, r) => some (c :: s, r)

/-- ASCII decimal digit, the character class of the JSON number
grammar's integer part. -/
def isDig (c : Char) : Bool := 48 ≤ c.toNat && c.toNat ≤ 57

/-- Digits prefix of the input (`List.span`-style). -/
def takeDigits (cs : List Char) : List Char × List Char :=
  (cs.takeWhile isDig, cs.dropWhile isDig)

mutual

def parseVal : Nat → List Char → Option (Json × List Char)
  | 0, _ => none
  | fuel + 1, cs =>
    match skipWs cs with
    | [] => none
    | c :: rest =>
      if c = 'n' then
        match rest with
        | 'u' :: 'l' :: 'l' :: r => some (.null, r)
        | _ => none
      else if c = 't' then
        match rest with
        | 'r' :: 'u' :: 'e' :: r => some (.bool true, r)
        | _ => none
      else if c = 'f' then
        match rest with
        | 'a' :: 'l' :: 's' :: 'e' :: r => some (.bool false, r)
        | _ => none
      else if c = '"' then
        match parseStringBody rest with
        | none => none
        | some (sb, r) => some (.str (String.mk sb), r)
      else if c = '[' then
        match skipWs rest with
        | [] => none
        | c2 :: r2 =>
          if c2 = ']' then some (.arr [], r2)
          else
            match parseElems fuel rest with
            | none => none
            | some (xs, r) => some (.arr xs, r)
      else if c = lbrace then
        match skipWs rest with
        | [] => none
        | c2 :: r2 =>
          if c2 = rbrace then some (.obj [], r2)
          else
            match parseMembers fuel rest with
            | none => none
            | some (ms, r) => some (.obj ms, r)
      else if c = '-' then
        match takeDigits rest with
        | ([], _) => none
        | (d :: ds, r) => some (.num (-(digitsToNat (d :: ds) : Int)), r)
      else if isDig c then
        match takeDigits (c :: rest) with
        | ([], _) => none
        | (d :: ds, r) => some (.num ((digitsToNat (d :: ds) : Int)), r)
      else none

def parseElems : Nat → List Char → Option (List Json × List Char)
  | 0, _ => none
  | fuel + 1, cs =>
    match parseVal fuel cs with
    | none => none
    | some (v, r) =>
      match skipWs r with
      | [] => none
      | c :: r2 =>
        if c = ',' then
          match parseElems fuel r2 with
          | none => none
          | some (vs, r3) => some (v :: vs, r3)
        else if c = ']' then some ([v], r2)
        else none

def parseMembers : Nat → List Char → Option (List (String × Json) × List Char)
  | 0, _ => none
  | fuel + 1, cs =>
    match skipWs cs with
    | [] => none
    | c0 :: rest =>
      if c0 = '"' then
        match parseStringBody rest with
        | none => none
        | some (k, r) =>
          match skipWs r with
          | [] => none
          | c1 :: r2 =>
            if c1 = ':' then
              match parseVal fuel r2 with
              | none => none
              | some (v, r3) =>
                match skipWs r3 with
                | [] => none
                | c3 :: r4 =>
                  if c3 = ',' then
                    match parseMembers fuel r4 with
                    | none => none
                    | some (ms, r5) =>
                      some (consMember (String.mk k) v ms, r5)
                  else if c3 = rbrace then some ([(String.mk k, v)], r4)
                  else none
            else none
      else none

end

/-- Model of `json.loads`: parse the whole (whitespace-trimmed) input as a
single JSON value. -/
def parseJson (cs : List Char) : Option Json :=
  match parseVal (2 * cs.length + 2) cs with
  | some (j, rest) => if (skipWs rest).isEmpty then some j else none
  | none => none

/-! ## The transformation pipeline of `people_protocol_skill_builder.py` -/

/-- The Python exceptions that can escape `transform_skill`:
`json.JSONDecodeError` (carrying the document it was parsing),
the `ValueError` raised by the statement-count validation, and the
`AttributeError` raised by `.get` on a non-dict value. -/
inductive PyErr where
  | jsonDecodeError (doc : List Char) : PyErr
  | valueError (msg : String) : PyErr
  | attributeError : PyErr
deriving Repr, DecidableEq

/-- `json.loads`, with the failure carrying the document. -/
def loads (cs : List Char) : Except PyErr Json :=
  match parseJson cs with
  | some j => .ok j
  | none => .error (.jsonDecodeError cs)

def fenceJson : List Char := "```json".data

def fence : List Char := "```".data

/-- The `except json.JSONDecodeError:` fallback of source lines 244-253:
try the `\x60\x60\x60json` fence, then the bare fence, else re-raise the
original failure `e`. -/
def extractFallback (response_text : List Char) (e : PyErr) :
    Except PyErr Json :=
  if containsSub response_text fenceJson then
    loads (pyStrip
      (((splitOnSub ((splitOnSub response_text fenceJson).getD 1 [])
          fence).headD [])))
  else if containsSub response_text fence then
    loads (pyStrip
      (((splitOnSub ((splitOnSub response_text fence).getD 1 [])
          fence).headD [])))
  else .error e

/-- The `try: json.loads / except: fence extraction` block of
`transform_skill` (source lines 242-253), applied to the stripped
response text. -/
def extractJson (response_text : List Char) : Except PyErr Json :=
  match loads response_text with
  | .ok result => .ok result
  | .error e => extractFallback response_text e

def canonicalLevels : List String :=
  ["poor", "basic", "intermediate", "advanced", "exceptional"]

/-- The per-level violation message of source line 263. -/
def levelMsg (level : String) (n : Nat) : String :=
  "Level \"" ++ level ++ "\" must have at least 2 statements, but found " ++
    toString n

/-- Python `sep.join`. -/
def joinSep (sep : String) : List String → String
  | [] => ""
  | [s] => s
  | s :: t :: rest => s ++ sep ++ joinSep sep (t :: rest)

/-- The violation collected for one level, if any: `None` means the level
passes.  `jlookup lf level = none` corresponds to `.get(level, [])`
returning the empty list, which is reported with count 0. -/
def levelViolation (lf : List (String × Json)) (level : String) :
    Option String :=
  match jlookup lf level with
  | some (.arr xs) =>
    if xs.length < 2 then some (levelMsg level xs.length) else none
  | some _ => some (levelMsg level 0)
  | none => some (levelMsg level 0)

/-- The collection-and-raise part of the validation loop, once
`result.get("levels", {})` produced a dict `lf`. -/
def validateLevels (fields lf : List (String × Json)) : Except PyErr Json :=
  let validation_errors := canonicalLevels.filterMap (levelViolation lf)
  if validation_errors.isEmpty then .ok (.obj fields)
  else
    .error (.valueError
      ("Invalid skill transformation: " ++
        joinSep "; " validation_errors ++
        ". Please regenerate with at least 2 statements per level."))

/-- Dispatch on the value of `result.get("levels", {})`: a non-dict value
makes the attribute access `.get(level, [])` fail with `AttributeError`
on the first loop iteration. -/
def validateLevelsVal (fields : List (String × Json)) :
    Json → Except PyErr Json
  | .obj lf => validateLevels fields lf
  | _ => .error .attributeError

/-- The validation of source lines 255-270: iterate the five levels,
collect violation messages, raise `ValueError` if any, else return the
parsed result unchanged.  A non-dict `result` makes `result.get` fail
with `AttributeError`. -/
def validateSkill : Json → Except PyErr Json
  | .obj fields =>
    validateLevelsVal fields ((jlookup fields "levels").getD (.obj []))
  | _ => .error .attributeError

/-- A Lightcast skill record as consumed by `transform_skill`: a Python
dict whose `id`/`name`/`description` keys may each be absent. -/
structure Skill where
  id : Option String
  name : Option String
  description : Option String

/-- The fixed template text of `TRANSFORMATION_PROMPT` (source lines
44-167) as it reads after `.format` brace unescaping, up to and
including the `Name: ` label that precedes the first substituted
field. -/
def promptHead : String :=
  "You are transforming skills into the People Protocol framework format.\n" ++
  "\n" ++
  "## What is a Skill?\n" ++
  "\n" ++
  "Skills are technical and functional competencies required for a role. They are NOT:\n" ++
  "- Behaviors/Values (universal organizational attributes)\n" ++
  "- Deliverables (output metrics like speed, quality)\n" ++
  "- Personality traits (abstract characteristics)\n" ++
  "\n" ++
  "Skills provide clear roadmaps for growth, objective recruitment criteria, and standardized expectations.\n" ++
  "\n" ++
  "## The Five Proficiency Levels\n" ++
  "\n" ++
  "Each skill uses a consistent five-level scale that builds cumulatively. An employee at \"Advanced\" has demonstrated all behaviors at Poor (absence of), Basic, and Intermediate levels.\n" ++
  "\n" ++
  "| Level | Label | Definition |\n" ++
  "|-------|-------|------------|\n" ++
  "| 1 | **Poor** | Red flag behaviors—no employee should exhibit these. Indicates fundamental gaps or negative impact. |\n" ++
  "| 2 | **Basic** | Minimum acceptable standard. Foundational competency expected of entry-level employees. |\n" ++
  "| 3 | **Intermediate** | Solid proficiency. Independent execution with reliability on complex tasks. |\n" ++
  "| 4 | **Advanced** | High mastery. Strategic application, innovation, and ability to handle novel situations. |\n" ++
  "| 5 | **Exceptional** | World-class. Industry-leading expertise that only the very best demonstrate. |\n" ++
  "\n" ++
  "## Observable Statement Requirements\n" ++
  "\n" ++
  "Each statement must be:\n" ++
  "- **Observable**: Based on actions a manager can witness, not internal states\n" ++
  "- **Specific**: Describes concrete behaviors, not vague qualities\n" ++
  "- **Binary**: Can be answered Yes or No without ambiguity\n" ++
  "- **Action-oriented**: Uses verbs that describe what someone does\n" ++
  "- **Level-appropriate**: Complexity matches the proficiency level\n" ++
  "\n" ++
  "**Good examples**: \"Delivers tasks on time\", \"Identifies errors in seemingly correct statements by applying critical thinking\", \"Breaks down simple problems based on data and resolves them\"\n" ++
  "\n" ++
  "**Bad examples**: \"Has good time management\", \"Thinks critically\", \"Is pretty good at problem-solving\"\n" ++
  "\n" ++
  "## Statement Quantity Per Level\n" ++
  "\n" ++
  "**CRITICAL - MANDATORY REQUIREMENT**: Each level MUST have EXACTLY 2 or more statements. There should NEVER be 0 or 1 statement for any level. This is a hard requirement that cannot be violated.\n" ++
  "\n" ++
  "- **Poor**: 2–5 statements (define clear \"red lines\") - **MUST HAVE AT LEAST 2, NEVER 0 OR 1**\n" ++
  "- **Basic**: 2–4 statements (core foundational behaviors) - **MUST HAVE AT LEAST 2, NEVER 0 OR 1**\n" ++
  "- **Intermediate**: 2–4 statements (solid independent performance) - **MUST HAVE AT LEAST 2, NEVER 0 OR 1**\n" ++
  "- **Advanced**: 2–5 statements (multiple aspects of mastery) - **MUST HAVE AT LEAST 2, NEVER 0 OR 1**\n" ++
  "- **Exceptional**: 2–3 statements (rare, distinctive achievements) - **MUST HAVE AT LEAST 2, NEVER 0 OR 1**\n" ++
  "\n" ++
  "**Total per skill**: 10–21 observable statements (minimum 10: 2 per level × 5 levels).\n" ++
  "\n" ++
  "**VALIDATION**: Your response will be rejected if ANY level has fewer than 2 statements. Ensure every level has at least 2 statements before returning your response.\n" ++
  "\n" ++
  "## Statement Writing Patterns by Level\n" ++
  "\n" ++
  "**Poor Level** (what NOT to do):\n" ++
  "- \"Demonstrates unstructured [skill], fails to [expected outcome]\"\n" ++
  "- \"Lacks [key attribute], [negative consequence]\"\n" ++
  "- \"[Negative behavior] when challenged\"\n" ++
  "- \"Unable to [basic expectation]\"\n" ++
  "\n" ++
  "**Basic Level** (foundational competency):\n" ++
  "- \"Shows common sense by [observable action]\"\n" ++
  "- \"Can [basic task] based on [inputs]\"\n" ++
  "- \"[Core competency]: [expected output]\"\n" ++
  "- \"Recognizes [fundamental concepts] and applies them correctly\"\n" ++
  "\n" ++
  "**Intermediate Level** (independent execution):\n" ++
  "- \"Identifies [nuanced issues] by applying [method]\"\n" ++
  "- \"Delves into [complex areas] until reaching deep understanding\"\n" ++
  "- \"Consistently [positive behavior] without supervision\"\n" ++
  "- \"Able to [complex output] with minimal guidance\"\n" ++
  "\n" ++
  "**Advanced Level** (strategic mastery):\n" ++
  "- \"Can synthesize [complex inputs] and connect [non-obvious elements]\"\n" ++
  "- \"Approaches [skill area] in an innovative way\"\n" ++
  "- \"Able to [teach/mentor/develop] others in [skill area]\"\n" ++
  "- \"Creates [frameworks/standards] adopted by the team\"\n" ++
  "\n" ++
  "**Exceptional Level** (industry-leading):\n" ++
  "- \"Engages in [abstract/theoretical work] at the highest level\"\n" ++
  "- \"Solves [unprecedented challenges] using [advanced methods]\"\n" ++
  "- \"Recognized externally as an authority in [skill area]\"\n" ++
  "- \"Redefines [industry/field] standards and expectations\"\n" ++
  "\n" ++
  "## Scorecard Mechanics\n" ++
  "\n" ++
  "Managers assess skills by reviewing each statement starting from Poor, marking \"Yes\" or \"No\" based on observed behavior, and stopping at the first \"No\" response. The employee\x27s level is the highest level where all statements are \"Yes\".\n" ++
  "\n" ++
  "**Critical**: Earlier statements (Poor, Basic) must be absolute prerequisites. A \"No\" at Basic means the employee scores Poor, regardless of advanced capabilities.\n" ++
  "\n" ++
  "## Quality Checklist\n" ++
  "\n" ++
  "Before generating statements, ensure:\n" ++
  "- All statements are observable (manager can answer Yes/No)\n" ++
  "- Each statement is distinct (no duplicates across levels)\n" ++
  "- Poor level describes genuinely problematic behaviors\n" ++
  "- Basic level is achievable by entry-level employees\n" ++
  "- Exceptional level is genuinely rare (top 1–5%)\n" ++
  "- Statements use action verbs (demonstrates, delivers, identifies, creates)\n" ++
  "- Statements avoid subjective qualifiers (good, bad, excellent)\n" ++
  "- Progression from Poor → Exceptional shows clear capability increase\n" ++
  "\n" ++
  "## Output Format\n" ++
  "\n" ++
  "Return ONLY valid JSON in this exact structure (no markdown, no explanation):\n" ++
  "\n" ++
  "\x7b\n" ++
  "  \"name\": \"Skill Name\",\n" ++
  "  \"description\": \"One-line definition\",\n" ++
  "  \"lightcast_id\": \"original_id\",\n" ++
  "  \"levels\": \x7b\n" ++
  "    \"poor\": [\"statement 1\", \"statement 2\"],\n" ++
  "    \"basic\": [\"statement 1\", \"statement 2\"],\n" ++
  "    \"intermediate\": [\"statement 1\", \"statement 2\"],\n" ++
  "    \"advanced\": [\"statement 1\", \"statement 2\", \"statement 3\"],\n" ++
  "    \"exceptional\": [\"statement 1\", \"statement 2\"]\n" ++
  "  \x7d\n" ++
  "\x7d\n" ++
  "\n" ++
  "## Skill to Transform\n" ++
  "\n" ++
  "Name: "

def promptMid1 : String := "\nDescription: "

def promptMid2 : String := "\nLightcast ID: "

def promptTail : String := "\n\nReturn ONLY the JSON object, nothing else."

/-- `TRANSFORMATION_PROMPT.format(...)` of source lines 227-231:
`skill.get("name", "")`, `skill.get("description", "No description
available")` and `skill.get("id", "")` substituted into the fixed
template.  `promptHead` is the template text before the `Name:` line. -/
def buildPrompt (skill : Skill) : String :=
  promptHead ++ skill.name.getD "" ++
    promptMid1 ++ skill.description.getD "No description available" ++
    promptMid2 ++ skill.id.getD "" ++ promptTail

/-- `transform_skill` (source lines 225-270) with the Claude call
injected: `modelInvoke` maps the prompt to `message.content[0].text`. -/
def transform_skill (skill : Skill) (modelInvoke : String → String) :
    Except PyErr Json :=
  let response_text := pyStrip (modelInvoke (buildPrompt skill)).data
  match extractJson response_text with
  | .ok result => validateSkill result
  | .error e => .error e

/-! ## Spec-side definitions, for refinement comparisons -/

def isStrJ : Json → Bool
  | .str _ => true
  | _ => false

/-- Written from the spec's words (section 6, output artifact): a JSON
object with string-valued `name`, `description` and `lightcast_id`, plus
a `levels` object whose keys are exactly the five canonical level names,
each mapped to a sequence of strings of length at least 2, and no other
top-level keys. -/
def wireShape (j : Json) : Bool :=
  match j with
  | .obj fields =>
    (match jlookup fields "name" with
     | some (.str _) => true | _ => false) &&
    (match jlookup fields "description" with
     | some (.str _) => true | _ => false) &&
    (match jlookup fields "lightcast_id" with
     | some (.str _) => true | _ => false) &&
    (match jlookup fields "levels" with
     | some (.obj lf) =>
       canonicalLevels.all (fun l =>
         match jlookup lf l with
         | some (.arr xs) => decide (2 ≤ xs.length) && xs.all isStrJ
         | _ => false) &&
       lf.all (fun kv => canonicalLevels.contains kv.1)
     | _ => false) &&
    fields.all (fun kv =>
      ["name", "description", "lightcast_id", "levels"].contains kv.1)
  | _ => false

/-- Written from the spec's words (section 4.1): the Prompt Builder whose
description substitution uses the placeholder when the description is
"absent/empty".  The code builder `buildPrompt` defaults only when the
key is absent. -/
def specBuildPrompt (skill : Skill) : String :=
  promptHead ++ skill.name.getD "" ++
    promptMid1 ++
    (match skill.description with
     | none => "No description available"
     | some d => if d = "" then "No description available" else d) ++
    promptMid2 ++ skill.id.getD "" ++ promptTail

/-- Field accessor used to state identifier claims. -/
def getField (j : Json) (key : String) : Option Json :=
  match j with
  | .obj fields => jlookup fields key
  | _ => none

/-! ## Concrete sample data used by witnesses and counterexamples -/

def twoStmts (a b : String) : Json := .arr [.str a, .str b]

/-- Five canonical levels with exactly two statements each. -/
def goodLevels : List (String × Json) :=
  [("poor", twoStmts "p1" "p2"), ("basic", twoStmts "b1" "b2"),
   ("intermediate", twoStmts "i1" "i2"), ("advanced", twoStmts "a1" "a2"),
   ("exceptional", twoStmts "e1" "e2")]

def goodFields : List (String × Json) :=
  [("name", .str "N"), ("description", .str "D"),
   ("lightcast_id", .str "OTHER"), ("levels", .obj goodLevels)]

/-- A fully valid candidate whose `lightcast_id` is `"OTHER"`. -/
def goodCand : Json := .obj goodFields

/-- A candidate with a single statement at `"poor"` and two everywhere
else. -/
def poorShortCand : Json :=
  .obj [("name", .str "N"), ("description", .str "D"),
        ("lightcast_id", .str "X"),
        ("levels", .obj
          [("poor", .arr [.str "p1"]), ("basic", twoStmts "b1" "b2"),
           ("intermediate", twoStmts "i1" "i2"),
           ("advanced", twoStmts "a1" "a2"),
           ("exceptional", twoStmts "e1" "e2")])]

/-- Levels deficient at two places: `"poor"` empty, `"exceptional"`
missing. -/
def twoGapsLF : List (String × Json) :=
  [("poor", .arr []), ("basic", twoStmts "b1" "b2"),
   ("intermediate", twoStmts "i1" "i2"),
   ("advanced", twoStmts "a1" "a2")]

def twoGapsFields : List (String × Json) := [("levels", .obj twoGapsLF)]

/-- A candidate deficient at two levels simultaneously. -/
def twoGapsCand : Json := .obj twoGapsFields

/-- A valid candidate that carries none of `name`, `description`,
`lightcast_id`. -/
def levelsOnlyCand : Json := .obj [("levels", .obj goodLevels)]

def sampleSkill : Skill := ⟨some "SKILL-1", some "Alpha", some "A desc"⟩

/-! ## Validator lemmas -/

theorem levelViolation_none_iff (lf : List (String × Json)) (l : String) :
    levelViolation lf l = none ↔
      ∃ xs, jlookup lf l = some (.arr xs) ∧ 2 ≤ xs.length := by
  unfold levelViolation
  cases h : jlookup lf l with
  | none => simp
  | some v =>
    cases v with
    | arr xs =>
      by_cases hl : xs.length < 2
      · simp only [if_pos hl]
        constructor
        · intro h'; exact Option.noConfusion h'
        · rintro ⟨ys, hy, hlen⟩
          simp only [Option.some.injEq, Json.arr.injEq] at hy
          subst hy; omega
      · simp only [if_neg hl]
        exact ⟨fun _ => ⟨xs, rfl, by omega⟩, fun _ => trivial⟩
    | null => simp
    | bool b => simp
    | num n => simp
    | str s => simp
    | obj ms => simp

/-- The observed count the validator reports for a level: the sequence
length when the value is a sequence, otherwise 0 (also for an absent
key). -/
def observedCount (lf : List (String × Json)) (l : String) : Nat :=
  match jlookup lf l with
  | some (.arr xs) => xs.length
  | _ => 0

theorem levelViolation_eq_some (lf : List (String × Json)) (l : String)
    (h : ¬ ∃ xs, jlookup lf l = some (.arr xs) ∧ 2 ≤ xs.length) :
    levelViolation lf l = some (levelMsg l (observedCount lf l)) := by
  unfold levelViolation observedCount
  cases hv : jlookup lf l with
  | none => rfl
  | some v =>
    cases v with
    | arr xs =>
      have hlt : xs.length < 2 := by
        by_contra hge
        exact h ⟨xs, by rw [hv], by omega⟩
      simp [if_pos hlt]
    | null => rfl
    | bool b => rfl
    | num n => rfl
    | str s => rfl
    | obj ms => rfl

theorem validateSkill_obj (fields lf : List (String × Json))
    (hlv : (jlookup fields "levels").getD (.obj []) = .obj lf) :
    validateSkill (.obj fields) =
      (if (canonicalLevels.filterMap (levelViolation lf)).isEmpty then
        Except.ok (Json.obj fields)
      else
        .error (.valueError
          ("Invalid skill transformation: " ++
            joinSep "; " (canonicalLevels.filterMap (levelViolation lf)) ++
            ". Please regenerate with at least 2 statements per level."))) := by
  rw [show validateSkill (.obj fields) =
    validateLevelsVal fields ((jlookup fields "levels").getD (.obj []))
    from rfl, hlv]
  rfl

theorem validateSkill_ok_shape (j r : Json) (h : validateSkill j = .ok r) :
    r = j ∧ ∃ fields lf, j = .obj fields ∧
      jlookup fields "levels" = some (.obj lf) ∧
      ∀ l ∈ canonicalLevels, ∃ xs,
        jlookup lf l = some (.arr xs) ∧ 2 ≤ xs.length := by
  cases j with
  | null => exact Except.noConfusion h
  | bool b => exact Except.noConfusion h
  | num n => exact Except.noConfusion h
  | str s => exact Except.noConfusion h
  | arr xs => exact Except.noConfusion h
  | obj fields =>
    rw [show validateSkill (.obj fields) =
      validateLevelsVal fields ((jlookup fields "levels").getD (.obj []))
      from rfl] at h
    cases hg : jlookup fields "levels" with
    | none =>
      rw [hg] at h
      rw [show validateLevelsVal fields ((none : Option Json).getD (.obj [])) =
        validateLevels fields [] from rfl] at h
      rw [show validateLevels fields [] = .error (.valueError
        ("Invalid skill transformation: " ++
          joinSep "; " (canonicalLevels.filterMap (levelViolation [])) ++
          ". Please regenerate with at least 2 statements per level."))
        from rfl] at h
      exact Except.noConfusion h
    | some v =>
      rw [hg] at h
      cases v with
      | obj lf =>
        rw [show validateLevelsVal fields ((some (Json.obj lf)).getD (.obj [])) =
          validateLevels fields lf from rfl] at h
        unfold validateLevels at h
        by_cases he :
            (canonicalLevels.filterMap (levelViolation lf)).isEmpty = true
        · rw [if_pos he] at h
          have hr : r = Json.obj fields := by
            cases h; rfl
          refine ⟨hr, fields, lf, rfl, hg, ?_⟩
          intro l hl
          have hnil := List.isEmpty_iff.mp he
          have := (List.filterMap_eq_nil_iff.mp hnil) l hl
          exact (levelViolation_none_iff lf l).mp this
        · rw [if_neg he] at h
          exact Except.noConfusion h
      | null => exact Except.noConfusion h
      | bool b => exact Except.noConfusion h
      | num n => exact Except.noConfusion h
      | str s => exact Except.noConfusion h
      | arr xs => exact Except.noConfusion h

theorem transform_eq (skill : Skill) (invoke : String → String) :
    transform_skill skill invoke =
      match extractJson (pyStrip (invoke (buildPrompt skill)).data) with
      | .ok result => validateSkill result
      | .error e => .error e := rfl

/-! ## Substring lemmas -/

theorem lpre_refl (xs : List Char) : lpre xs xs = true := by
  induction xs with
  | nil => rfl
  | cons a as ih => simp [lpre, ih]

theorem lpre_extend (n : List Char) :
    ∀ hay t, lpre n hay = true → lpre n (hay ++ t) = true := by
  induction n with
  | nil => intro hay t _; rfl
  | cons a as ih =>
    intro hay t h
    cases hay with
    | nil => exact Bool.noConfusion h
    | cons b bs =>
      simp only [lpre, Bool.and_eq_true] at h ⊢
      exact ⟨h.1, ih bs t h.2⟩

theorem containsSub_nil (t : List Char) : containsSub t [] = true := by
  cases t with
  | nil => rfl
  | cons c r => simp [containsSub, lpre]

theorem containsSub_append_right (hay t sub : List Char)
    (h : containsSub hay sub = true) : containsSub (hay ++ t) sub = true := by
  induction hay with
  | nil =>
    have : sub = [] := by
      simpa [containsSub, List.isEmpty_iff] using h
    subst this
    exact containsSub_nil t
  | cons c rest ih =>
    simp only [containsSub, Bool.or_eq_true] at h
    rcases h with h | h
    · simp only [List.cons_append, containsSub, Bool.or_eq_true]
      exact Or.inl (by simpa using lpre_extend sub (c :: rest) t h)
    · simp only [List.cons_append, containsSub, Bool.or_eq_true]
      exact Or.inr (ih h)

theorem containsSub_append_left (t hay sub : List Char)
    (h : containsSub hay sub = true) : containsSub (t ++ hay) sub = true := by
  induction t with
  | nil => exact h
  | cons c rest ih =>
    simp only [List.cons_append, containsSub, Bool.or_eq_true]
    exact Or.inr ih

theorem containsSub_self (sub : List Char) : containsSub sub sub = true := by
  cases sub with
  | nil => rfl
  | cons c r => simp [containsSub, lpre_refl]

theorem containsSub_joinSep (sep : String) (parts : List String) (s : String)
    (hs : s ∈ parts) : containsSub (joinSep sep parts).data s.data = true := by
  induction parts with
  | nil => cases hs
  | cons p rest ih =>
    cases rest with
    | nil =>
      have : s = p := by simpa using hs
      subst this
      exact containsSub_self s.data
    | cons q rest' =>
      rcases List.mem_cons.mp hs with h | h
      · subst h
        show containsSub (s ++ sep ++ joinSep sep (q :: rest')).data s.data = true
        rw [String.data_append, String.data_append]
        exact containsSub_append_right _ _ _
          (containsSub_append_right _ _ _ (containsSub_self s.data))
      · show containsSub (p ++ sep ++ joinSep sep (q :: rest')).data s.data = true
        rw [String.data_append, String.data_append, List.append_assoc]
        exact containsSub_append_left _ _ _
          (containsSub_append_left _ _ _ (ih h))

/-! ## Claim C1 -/

/-- C1: the transformation succeeds (returns the candidate as a
TransformedSkill) if and only if every one of the five canonical levels
maps, in the candidate's `levels` mapping, to a sequence of length at
least 2; hence no result violating the per-level minimum is ever
returned as success. -/
theorem C1_success_iff_min_two (skill : Skill) (invoke : String → String)
    (fields lf : List (String × Json))
    (hx : extractJson (pyStrip (invoke (buildPrompt skill)).data) =
      .ok (.obj fields))
    (hlv : jlookup fields "levels" = some (.obj lf)) :
    (∃ j, transform_skill skill invoke = .ok j) ↔
      ∀ l ∈ canonicalLevels, ∃ xs,
        jlookup lf l = some (.arr xs) ∧ 2 ≤ xs.length := by
  rw [transform_eq, hx]
  show (∃ j, validateSkill (.obj fields) = .ok j) ↔ _
  rw [validateSkill_obj fields lf (by rw [hlv]; rfl)]
  by_cases he : (canonicalLevels.filterMap (levelViolation lf)).isEmpty = true
  · rw [if_pos he]
    constructor
    · intro _ l hl
      have hnil := List.isEmpty_iff.mp he
      exact (levelViolation_none_iff lf l).mp
        ((List.filterMap_eq_nil_iff.mp hnil) l hl)
    · intro _; exact ⟨_, rfl⟩
  · rw [if_neg he]
    constructor
    · rintro ⟨j, hj⟩; exact Except.noConfusion hj
    · intro hall
      exfalso
      apply he
      rw [List.isEmpty_iff, List.filterMap_eq_nil_iff]
      exact fun l hl => (levelViolation_none_iff lf l).mpr (hall l hl)

/-- Witness for C1: a candidate holding exactly 2 statements at every
level is accepted. -/
theorem C1_witness :
    ∃ j, transform_skill sampleSkill (fun _ => dumps goodCand) = .ok j :=
  (C1_success_iff_min_two sampleSkill (fun _ => dumps goodCand)
    goodFields goodLevels rfl rfl).mpr (by
      intro l hl
      fin_cases hl <;> exact ⟨_, rfl, by norm_num⟩)

/-! ## Claim C2 -/

/-- C2 is refuted: the code returns the parsed model output unchanged, so
a response carrying `lightcast_id` `"OTHER"` yields a successful
`TransformedSkill` whose identifier differs from the source identifier
`"SKILL-1"`. -/
theorem C2_counterexample :
    transform_skill sampleSkill (fun _ => dumps goodCand) = .ok goodCand ∧
      getField goodCand "lightcast_id" = some (.str "OTHER") ∧
      sampleSkill.id = some "SKILL-1" ∧ "OTHER" ≠ "SKILL-1" :=
  ⟨rfl, rfl, rfl, by decide⟩

/-- C2 amended: the successful result is exactly the candidate extracted
from the model response, so every field — `lightcast_id` included — is
the model's value, and the source identifier is preserved only when the
model echoes it. -/
theorem C2_result_is_model_output (skill : Skill) (invoke : String → String)
    (j : Json) (h : transform_skill skill invoke = .ok j) :
    extractJson (pyStrip (invoke (buildPrompt skill)).data) = .ok j := by
  rw [transform_eq] at h
  cases hx : extractJson (pyStrip (invoke (buildPrompt skill)).data) with
  | error e => rw [hx] at h; exact Except.noConfusion h
  | ok r =>
    rw [hx] at h
    obtain ⟨hrj, -⟩ := validateSkill_ok_shape r j h
    rw [hrj]

/-- Witness for the amended C2 at a concrete success. -/
theorem C2_witness :
    extractJson (pyStrip (dumps goodCand).data) = .ok goodCand :=
  C2_result_is_model_output sampleSkill (fun _ => dumps goodCand) goodCand rfl

/-! ## Claim C4 -/

/-- C4: on validation failure, the single message contains, for every
violating level (not only the first), the text naming that level with
its observed count, where an absent key or a non-sequence value is
reported with count 0. -/
theorem C4_message_enumerates_violations (fields lf : List (String × Json))
    (msg : String)
    (hlv : jlookup fields "levels" = some (.obj lf))
    (hfail : validateSkill (.obj fields) = .error (.valueError msg)) :
    ∀ l ∈ canonicalLevels,
      (¬ ∃ xs, jlookup lf l = some (.arr xs) ∧ 2 ≤ xs.length) →
      containsSub msg.data (levelMsg l (observedCount lf l)).data = true := by
  intro l hl hviol
  rw [validateSkill_obj fields lf (by rw [hlv]; rfl)] at hfail
  by_cases he : (canonicalLevels.filterMap (levelViolation lf)).isEmpty = true
  · rw [if_pos he] at hfail
    exact Except.noConfusion hfail
  · rw [if_neg he] at hfail
    have hmsg : msg = "Invalid skill transformation: " ++
        joinSep "; " (canonicalLevels.filterMap (levelViolation lf)) ++
        ". Please regenerate with at least 2 statements per level." := by
      cases hfail; rfl
    have hmem : levelMsg l (observedCount lf l) ∈
        canonicalLevels.filterMap (levelViolation lf) :=
      List.mem_filterMap.mpr ⟨l, hl, levelViolation_eq_some lf l hviol⟩
    rw [hmsg, String.data_append, String.data_append]
    exact containsSub_append_right _ _ _
      (containsSub_append_left _ _ _
        (containsSub_joinSep _ _ _ hmem))

/-- The message of the `ValueError` that a candidate provokes (empty when
the candidate validates). -/
def failMsgOf (cand : Json) : String :=
  match validateSkill cand with
  | .error (.valueError m) => m
  | _ => ""

/-- Witness for C4: a candidate with an empty `"poor"` sequence and no
`"exceptional"` key at all is reported for both levels, each with
count 0. -/
theorem C4_witness :
    containsSub (failMsgOf twoGapsCand).data (levelMsg "poor" 0).data = true ∧
    containsSub (failMsgOf twoGapsCand).data
      (levelMsg "exceptional" 0).data = true := by
  constructor
  · exact C4_message_enumerates_violations twoGapsFields twoGapsLF
      (failMsgOf twoGapsCand) rfl rfl "poor"
      (by simp [canonicalLevels]) (by simp [twoGapsLF, jlookup])
  · exact C4_message_enumerates_violations twoGapsFields twoGapsLF
      (failMsgOf twoGapsCand) rfl rfl "exceptional"
      (by simp [canonicalLevels]) (by simp [twoGapsLF, jlookup])

/-! ## Claim C6 -/

/-- C6 is refuted: the error escaping a failed transformation carries no
annotation with the skill's identifier or name — here the validation
failure for the skill with identifier `"SKILL-1"` and name `"Alpha"`
mentions neither. -/
theorem C6_counterexample :
    transform_skill sampleSkill (fun _ => dumps poorShortCand) =
      .error (.valueError (failMsgOf poorShortCand)) ∧
    containsSub (failMsgOf poorShortCand).data "SKILL-1".data = false ∧
    containsSub (failMsgOf poorShortCand).data "Alpha".data = false :=
  ⟨rfl, by decide, by decide⟩

/-- C6 amended: the orchestrator propagates each stage's error without
annotating it; the entire outcome is a function of the model response
text alone and is independent of the source skill's identifier and
name. -/
theorem C6_outcome_ignores_skill (s₁ s₂ : Skill) (r : String) :
    transform_skill s₁ (fun _ => r) = transform_skill s₂ (fun _ => r) := rfl

/-! ## Claim C7 -/

/-- C7 is refuted: a successful transformation need not match the
documented wire shape — a response carrying only a valid `levels`
mapping succeeds although `name`, `description` and `lightcast_id` are
all absent. -/
theorem C7_counterexample :
    transform_skill sampleSkill (fun _ => dumps levelsOnlyCand) =
      .ok levelsOnlyCand ∧
    wireShape levelsOnlyCand = false :=
  ⟨rfl, rfl⟩

/-- C7 amended: a successful transformation guarantees exactly the
levels part of the wire shape: the result is a JSON object whose
`levels` member is an object mapping each of the five canonical level
names to a sequence of length at least 2; the string-typing of `name`,
`description`, `lightcast_id` and of the statements themselves is not
enforced. -/
theorem C7_success_levels_shape (skill : Skill) (invoke : String → String)
    (j : Json) (h : transform_skill skill invoke = .ok j) :
    ∃ fields lf, j = .obj fields ∧
      jlookup fields "levels" = some (.obj lf) ∧
      ∀ l ∈ canonicalLevels, ∃ xs,
        jlookup lf l = some (.arr xs) ∧ 2 ≤ xs.length := by
  rw [transform_eq] at h
  cases hx : extractJson (pyStrip (invoke (buildPrompt skill)).data) with
  | error e => rw [hx] at h; exact Except.noConfusion h
  | ok r =>
    rw [hx] at h
    obtain ⟨hrj, hshape⟩ := validateSkill_ok_shape r j h
    rw [hrj]
    exact hshape

/-- Witness for the amended C7 at a concrete success. -/
theorem C7_witness :
    ∃ fields lf, levelsOnlyCand = .obj fields ∧
      jlookup fields "levels" = some (.obj lf) ∧
      ∀ l ∈ canonicalLevels, ∃ xs,
        jlookup lf l = some (.arr xs) ∧ 2 ≤ xs.length :=
  C7_success_levels_shape sampleSkill (fun _ => dumps levelsOnlyCand)
    levelsOnlyCand rfl

/-! ## Claim C10 -/

/-- C10: when the model response parses (at any tier) to a non-mapping
JSON value, the transformation fails with the untyped `AttributeError`
from the attribute access in the validation step, not with an
extraction or structural-validation error. -/
theorem C10_non_mapping_attribute_error (skill : Skill)
    (invoke : String → String) (j : Json)
    (hx : extractJson (pyStrip (invoke (buildPrompt skill)).data) = .ok j)
    (hno : ∀ fields, j ≠ .obj fields) :
    transform_skill skill invoke = .error .attributeError := by
  rw [transform_eq, hx]
  cases j with
  | obj fields => exact absurd rfl (hno fields)
  | null => rfl
  | bool b => rfl
  | num n => rfl
  | str s => rfl
  | arr xs => rfl

/-- Witness for C10: the response `"[1, 2]"` parses to a JSON array and
the transformation surfaces `AttributeError`. -/
theorem C10_witness :
    transform_skill sampleSkill (fun _ => "[1, 2]") =
      .error .attributeError :=
  C10_non_mapping_attribute_error sampleSkill (fun _ => "[1, 2]")
    (.arr [.num 1, .num 2]) rfl (fun _ h => Json.noConfusion h)

/-! ## Claim C9 -/

def emptyDescSkill : Skill := ⟨some "ID2", some "Beta", some ""⟩

/-- C9 is refuted on its absent-or-empty clause: for a skill whose
description is present but empty, the code substitutes the empty string,
not the placeholder that the spec's Prompt Builder (`specBuildPrompt`)
would substitute. -/
theorem C9_counterexample :
    buildPrompt emptyDescSkill ≠ specBuildPrompt emptyDescSkill := by
  intro h
  have hlen := congrArg String.length h
  rw [show buildPrompt emptyDescSkill =
      promptHead ++ "Beta" ++ promptMid1 ++ "" ++ promptMid2 ++ "ID2" ++
        promptTail from rfl,
    show specBuildPrompt emptyDescSkill =
      promptHead ++ "Beta" ++ promptMid1 ++ "No description available" ++
        promptMid2 ++ "ID2" ++ promptTail from rfl] at hlen
  simp only [String.length_append] at hlen
  rw [show ("" : String).length = 0 from rfl,
    show ("No description available" : String).length = 24 from rfl] at hlen
  omega

/-- C9 amended: the Prompt Builder is a pure, total substitution of
name, description and identifier into the fixed template; it matches
the spec's builder except that the placeholder is substituted only when
the description is absent — a present-but-empty description is
substituted as the empty string. -/
theorem C9_prompt_characterization (skill : Skill) :
    (skill.description = none →
      buildPrompt skill = specBuildPrompt skill) ∧
    (∀ d, skill.description = some d → d ≠ "" →
      buildPrompt skill = specBuildPrompt skill) ∧
    (skill.description = some "" →
      buildPrompt skill ≠ specBuildPrompt skill) := by
  obtain ⟨i, n, d⟩ := skill
  refine ⟨?_, ?_, ?_⟩
  · intro hd
    cases hd
    rfl
  · intro d' hd hne
    cases hd
    show _ = promptHead ++ _ ++ promptMid1 ++
      (if d' = "" then "No description available" else d') ++ promptMid2 ++
      _ ++ promptTail
    rw [if_neg hne]
    rfl
  · intro hd heq
    cases hd
    have hlen := congrArg String.length heq
    rw [show buildPrompt ⟨i, n, some ""⟩ =
        promptHead ++ n.getD "" ++ promptMid1 ++ "" ++ promptMid2 ++
          i.getD "" ++ promptTail from rfl,
      show specBuildPrompt ⟨i, n, some ""⟩ =
        promptHead ++ n.getD "" ++ promptMid1 ++
          "No description available" ++ promptMid2 ++ i.getD "" ++
          promptTail from rfl] at hlen
    simp only [String.length_append] at hlen
    rw [show ("" : String).length = 0 from rfl,
      show ("No description available" : String).length = 24 from rfl] at hlen
    omega

/-- Witness for the amended C9 at a concrete skill with a non-empty
description. -/
theorem C9_witness :
    buildPrompt sampleSkill = specBuildPrompt sampleSkill :=
  (C9_prompt_characterization sampleSkill).2.1 "A desc" rfl (by decide)

/-! ## Claim C5: error analysis of the extractor -/

theorem loads_ok (cs : List Char) (j : Json) (h : parseJson cs = some j) :
    loads cs = .ok j := by
  unfold loads; rw [h]

theorem loads_error (cs : List Char) (h : parseJson cs = none) :
    loads cs = .error (.jsonDecodeError cs) := by
  unfold loads; rw [h]

theorem extractJson_of_loads_ok (cs : List Char) (j : Json)
    (h : loads cs = .ok j) : extractJson cs = .ok j := by
  unfold extractJson; rw [h]

theorem extractJson_of_loads_error (cs : List Char) (e0 : PyErr)
    (h : loads cs = .error e0) : extractJson cs = extractFallback cs e0 := by
  unfold extractJson; rw [h]

/-- A prefix match of a longer needle is a prefix match of the shorter
one. -/
theorem lpre_of_append (xs ys : List Char) :
    ∀ hay, lpre (xs ++ ys) hay = true → lpre xs hay = true := by
  induction xs with
  | nil => intro hay _; rfl
  | cons a as ih =>
    intro hay h
    cases hay with
    | nil => exact absurd h (by simp [lpre])
    | cons b bs =>
      simp only [List.cons_append, lpre, Bool.and_eq_true] at h ⊢
      exact ⟨h.1, ih bs h.2⟩

/-- Any occurrence of the longer fence marker contains the shorter one. -/
theorem containsSub_fenceJson_fence (cs : List Char)
    (h : containsSub cs fence = false) :
    containsSub cs fenceJson = false := by
  induction cs with
  | nil => rfl
  | cons c rest ih =>
    simp only [containsSub, Bool.or_eq_false_iff] at h ⊢
    refine ⟨?_, ih h.2⟩
    cases hc : lpre fenceJson (c :: rest) with
    | false => rfl
    | true =>
      exfalso
      have hshort : lpre fence (c :: rest) = true :=
        lpre_of_append fence ('j' :: 's' :: 'o' :: 'n' :: []) (c :: rest)
          (by rw [show fence ++ ('j' :: 's' :: 'o' :: 'n' :: []) = fenceJson
            from rfl]; exact hc)
      rw [hshort] at h
      exact Bool.noConfusion h.1

/-- C5 amended: a failed extraction always surfaces a JSON parse
failure (never a silently empty result), and when the response contains
no fence marker at all the propagated failure is the original
whole-text one; but when a fenced tier was attempted, the propagated
failure is that tier's own (see the counterexample). -/
theorem C5_failure_analysis (response_text : List Char) (e : PyErr)
    (h : extractJson response_text = .error e) :
    (∃ d, e = .jsonDecodeError d) ∧
      (containsSub response_text fence = false →
        e = .jsonDecodeError response_text) := by
  cases hp : parseJson response_text with
  | some j =>
    rw [extractJson_of_loads_ok _ _ (loads_ok _ _ hp)] at h
    exact Except.noConfusion h
  | none =>
    rw [extractJson_of_loads_error _ _ (loads_error _ hp)] at h
    unfold extractFallback at h
    by_cases h1 : containsSub response_text fenceJson = true
    · rw [if_pos h1] at h
      constructor
      · cases hp2 : parseJson (pyStrip
          ((splitOnSub ((splitOnSub response_text fenceJson).getD 1 [])
            fence).headD [])) with
        | some j2 =>
          rw [loads_ok _ _ hp2] at h
          exact Except.noConfusion h
        | none =>
          rw [loads_error _ hp2] at h
          exact ⟨_, (Except.error.inj h).symm⟩
      · intro hnof
        exact absurd h1 (by rw [containsSub_fenceJson_fence _ hnof]; simp)
    · rw [if_neg h1] at h
      by_cases h2 : containsSub response_text fence = true
      · rw [if_pos h2] at h
        constructor
        · cases hp2 : parseJson (pyStrip
            ((splitOnSub ((splitOnSub response_text fence).getD 1 [])
              fence).headD [])) with
          | some j2 =>
            rw [loads_ok _ _ hp2] at h
            exact Except.noConfusion h
          | none =>
            rw [loads_error _ hp2] at h
            exact ⟨_, (Except.error.inj h).symm⟩
        · intro hnof
          exact absurd h2 (by rw [hnof]; simp)
      · rw [if_neg h2] at h
        have he : e = .jsonDecodeError response_text :=
          (Except.error.inj h).symm
        exact ⟨⟨response_text, he⟩, fun _ => he⟩

/-- Witness for the amended C5: fence-free unparseable text propagates
the original whole-text parse failure. -/
theorem C5_witness :
    (∃ d, PyErr.jsonDecodeError "no json here".data =
      .jsonDecodeError d) ∧
    (containsSub "no json here".data fence = false →
      PyErr.jsonDecodeError "no json here".data =
        .jsonDecodeError "no json here".data) :=
  C5_failure_analysis "no json here".data _ rfl

/-- C5 is refuted on its original-failure clause: for the response
`"```json\nnope\n```"` every tier fails, and the propagated failure is
the tier-2 one (document `"nope"`), not the original whole-text
failure. -/
theorem C5_counterexample :
    extractJson "```json\nnope\n```".data =
      .error (.jsonDecodeError "nope".data) ∧
    "nope".data ≠ "```json\nnope\n```".data :=
  ⟨rfl, by decide⟩

/-! ## Round trip: characters and digits -/

theorem char_ne_of_toNat_ne (c d : Char) (h : c.toNat ≠ d.toNat) : c ≠ d :=
  fun he => h (he ▸ rfl)

theorem isDig_iff (c : Char) :
    isDig c = true ↔ 48 ≤ c.toNat ∧ c.toNat ≤ 57 := by
  simp [isDig]

theorem not_ws_of_toNat_ge (c : Char) (h : 33 ≤ c.toNat) :
    jsonWs c = false ∧ pyIsSpace c = false := by
  have h32 : c ≠ ' ' := char_ne_of_toNat_ne _ _
    (by rw [show (' ' : Char).toNat = 32 from rfl]; omega)
  have h9 : c ≠ '\t' := char_ne_of_toNat_ne _ _
    (by rw [show ('\t' : Char).toNat = 9 from rfl]; omega)
  have h10 : c ≠ '\n' := char_ne_of_toNat_ne _ _
    (by rw [show ('\n' : Char).toNat = 10 from rfl]; omega)
  have h13 : c ≠ '\r' := char_ne_of_toNat_ne _ _
    (by rw [show ('\r' : Char).toNat = 13 from rfl]; omega)
  have h11 : c ≠ Char.ofNat 11 := char_ne_of_toNat_ne _ _
    (by rw [show (Char.ofNat 11).toNat = 11 from rfl]; omega)
  have h12 : c ≠ Char.ofNat 12 := char_ne_of_toNat_ne _ _
    (by rw [show (Char.ofNat 12).toNat = 12 from rfl]; omega)
  constructor
  · simp [jsonWs, h32, h9, h10, h13]
  · simp [pyIsSpace, h32, h9, h10, h13, h11, h12]

theorem skipWs_of_head (c : Char) (cs : List Char) (h : jsonWs c = false) :
    skipWs (c :: cs) = c :: cs := by
  simp [skipWs, List.dropWhile_cons, h]

theorem isDig_toNat_ge (c : Char) (h : isDig c = true) : 33 ≤ c.toNat := by
  have := (isDig_iff c).mp h
  omega

theorem isDig_ofNat48 (d : Nat) (h : d < 10) :
    isDig (Char.ofNat (48 + d)) = true := by
  interval_cases d <;> decide

theorem digitVal_ofNat48 (d : Nat) (h : d < 10) :
    digitVal (Char.ofNat (48 + d)) = d := by
  interval_cases d <;> decide

theorem natToCharsF_digits :
    ∀ f n c, c ∈ natToCharsF f n → isDig c = true := by
  intro f
  induction f with
  | zero => intro n c hc; cases hc
  | succ f ih =>
    intro n c hc
    unfold natToCharsF at hc
    by_cases hn : n < 10
    · rw [if_pos hn] at hc
      rcases List.mem_singleton.mp hc with rfl
      exact isDig_ofNat48 n hn
    · rw [if_neg hn] at hc
      rcases List.mem_append.mp hc with hc | hc
      · exact ih _ _ hc
      · rcases List.mem_singleton.mp hc with rfl
        exact isDig_ofNat48 _ (Nat.mod_lt _ (by omega))

theorem natToCharsF_ne_nil (f n : Nat) (h : 0 < f) :
    natToCharsF f n ≠ [] := by
  cases f with
  | zero => omega
  | succ f =>
    unfold natToCharsF
    by_cases hn : n < 10
    · rw [if_pos hn]; simp
    · rw [if_neg hn]; simp

theorem digitsToNat_append (ds : List Char) (c : Char) :
    digitsToNat (ds ++ [c]) = 10 * digitsToNat ds + digitVal c := by
  simp [digitsToNat, List.foldl_append]

theorem natToCharsF_roundtrip :
    ∀ f n, n < 10 ^ f → digitsToNat (natToCharsF f n) = n := by
  intro f
  induction f with
  | zero =>
    intro n hn
    simp at hn
    subst hn
    rfl
  | succ f ih =>
    intro n hn
    unfold natToCharsF
    by_cases h10 : n < 10
    · rw [if_pos h10]
      show 10 * 0 + digitVal (Char.ofNat (48 + n)) = n
      rw [digitVal_ofNat48 n h10]
      omega
    · rw [if_neg h10]
      rw [digitsToNat_append]
      have hdiv : n / 10 < 10 ^ f := by
        rw [Nat.div_lt_iff_lt_mul (by omega)]
        calc n < 10 ^ (f + 1) := hn
        _ = 10 ^ f * 10 := by rw [Nat.pow_succ]
      rw [ih _ hdiv, digitVal_ofNat48 _ (Nat.mod_lt _ (by omega))]
      omega

theorem natToChars_roundtrip (n : Nat) : digitsToNat (natToChars n) = n := by
  apply natToCharsF_roundtrip
  calc n < 2 ^ n := Nat.lt_two_pow n
  _ ≤ 10 ^ n := Nat.pow_le_pow_left (by omega) n
  _ ≤ 10 ^ (n + 1) := Nat.pow_le_pow_right (by omega) (by omega)

theorem natToChars_digits (n : Nat) (c : Char) (hc : c ∈ natToChars n) :
    isDig c = true :=
  natToCharsF_digits (n + 1) n c hc

theorem natToChars_ne_nil (n : Nat) : natToChars n ≠ [] :=
  natToCharsF_ne_nil (n + 1) n (by omega)

/-- Head character class of the untouched-by-whitespace serializer
output. -/
def noDigHead : List Char → Prop
  | [] => True
  | c :: _ => isDig c = false

theorem takeWhile_digits (ds rest : List Char)
    (hds : ∀ c ∈ ds, isDig c = true) (hrest : noDigHead rest) :
    (ds ++ rest).takeWhile isDig = ds ∧
      (ds ++ rest).dropWhile isDig = rest := by
  induction ds with
  | nil =>
    cases rest with
    | nil => simp
    | cons c r =>
      have hc : isDig c = false := hrest
      simp [List.takeWhile_cons, List.dropWhile_cons, hc]
  | cons d ds' ih =>
    have hd : isDig d = true := hds d (List.mem_cons_self d ds')
    have := ih (fun c hc => hds c (List.mem_cons_of_mem d hc))
    simp [List.takeWhile_cons, List.dropWhile_cons, hd, this.1, this.2]

theorem takeDigits_eq (ds rest : List Char)
    (hds : ∀ c ∈ ds, isDig c = true) (hrest : noDigHead rest) :
    takeDigits (ds ++ rest) = (ds, rest) := by
  unfold takeDigits
  rw [(takeWhile_digits ds rest hds hrest).1,
    (takeWhile_digits ds rest hds hrest).2]

/-! ## Round trip: head characters of serializer output -/

theorem serVal_head (j : Json) :
    ∃ c cs, serVal j = c :: cs ∧ 33 ≤ c.toNat ∧ c ≠ ']' := by
  cases j with
  | null => exact ⟨'n', _, rfl, by decide, by decide⟩
  | bool b =>
    cases b with
    | true => exact ⟨'t', _, rfl, by decide, by decide⟩
    | false => exact ⟨'f', _, rfl, by decide, by decide⟩
  | num i =>
    show ∃ c cs, intChars i = c :: cs ∧ _
    unfold intChars
    by_cases hi : i < 0
    · rw [if_pos hi]
      exact ⟨'-', _, rfl, by decide, by decide⟩
    · rw [if_neg hi]
      obtain ⟨d, ds, hds⟩ :=
        List.exists_cons_of_ne_nil (natToChars_ne_nil i.natAbs)
      have hdig : isDig d = true :=
        natToChars_digits i.natAbs d (by rw [hds]; exact List.mem_cons_self _ _)
      have hbounds := (isDig_iff d).mp hdig
      refine ⟨d, ds, hds, by omega, ?_⟩
      exact char_ne_of_toNat_ne _ _
        (by rw [show (']' : Char).toNat = 93 from rfl]; omega)
  | str s => exact ⟨'"', _, rfl, by decide, by decide⟩
  | arr xs => exact ⟨'[', _, rfl, by decide, by decide⟩
  | obj ms => exact ⟨lbrace, _, rfl, by decide, by decide⟩

/-! ## Round trip: fuel measure -/

mutual

/-- Fuel sufficient for `parseVal` to reparse a serialized value. -/
def needJ : Json → Nat
  | .null => 1
  | .bool _ => 1
  | .num _ => 1
  | .str _ => 1
  | .arr xs => 1 + needElems xs
  | .obj ms => 1 + needMembers ms

def needElems : List Json → Nat
  | [] => 1
  | x :: xs => 1 + max (needJ x) (needElems xs)

def needMembers : List (String × Json) → Nat
  | [] => 1
  | (_, v) :: ms => 1 + max (needJ v) (needMembers ms)

end

theorem serVal_length_pos (j : Json) : 1 ≤ (serVal j).length := by
  obtain ⟨c, cs, hcs, -, -⟩ := serVal_head j
  rw [hcs]
  simp

/-! ## Parser step lemmas (propositional unfoldings) -/

theorem parseStringBody_quote (rest : List Char) :
    parseStringBody ('"' :: rest) = some ([], rest) := by
  rw [parseStringBody.eq_def]
  simp

theorem parseStringBody_cons (c : Char) (rest : List Char)
    (h1 : ¬ c = '"') (h2 : ¬ c = '\\') :
    parseStringBody (c :: rest) =
      match parseStringBody rest with
      | none => none
      | some (s, r) => some (c :: s, r) := by
  rw [parseStringBody.eq_def]
  simp only [if_neg h1, if_neg h2]

theorem parseStringBody_esc (e c2 : Char) (rest : List Char)
    (h : unescape e = some c2) :
    parseStringBody ('\\' :: e :: rest) =
      match parseStringBody rest with
      | none => none
      | some (s, r) => some (c2 :: s, r) := by
  rw [parseStringBody.eq_def]
  simp only [if_neg (by decide : ¬ ('\\' : Char) = '"'), if_pos rfl, h]
  simp

theorem parseVal_null (f : Nat) (rest : List Char) :
    parseVal (f + 1) ('n' :: 'u' :: 'l' :: 'l' :: rest) =
      some (.null, rest) := by
  simp only [parseVal]
  rw [skipWs_of_head 'n' _ (by decide)]
  simp

theorem parseVal_true (f : Nat) (rest : List Char) :
    parseVal (f + 1) ('t' :: 'r' :: 'u' :: 'e' :: rest) =
      some (.bool true, rest) := by
  simp only [parseVal]
  rw [skipWs_of_head 't' _ (by decide)]
  simp

theorem parseVal_false (f : Nat) (rest : List Char) :
    parseVal (f + 1) ('f' :: 'a' :: 'l' :: 's' :: 'e' :: rest) =
      some (.bool false, rest) := by
  simp only [parseVal]
  rw [skipWs_of_head 'f' _ (by decide)]
  simp

theorem parseVal_quote (f : Nat) (rest : List Char) :
    parseVal (f + 1) ('"' :: rest) =
      match parseStringBody rest with
      | none => none
      | some (sb, r) => some (.str (String.mk sb), r) := by
  simp only [parseVal]
  rw [skipWs_of_head '"' _ (by decide)]
  simp

/-! ## Round trip: strings -/

theorem parseStringBody_escBody (s : List Char) :
    ∀ rest, parseStringBody (escBody s ++ '"' :: rest) = some (s, rest) := by
  induction s with
  | nil =>
    intro rest
    show parseStringBody ([] ++ '"' :: rest) = some ([], rest)
    rw [List.nil_append, parseStringBody_quote]
  | cons c cs ih =>
    intro rest
    show parseStringBody ((escChar c ++ escBody cs) ++ '"' :: rest) =
      some (c :: cs, rest)
    rw [List.append_assoc]
    by_cases h1 : c = '"'
    · subst h1
      rw [show escChar '"' = ['\\', '"'] from rfl]
      rw [show (['\\', '"'] : List Char) ++ (escBody cs ++ '"' :: rest) =
        '\\' :: '"' :: (escBody cs ++ '"' :: rest) from rfl]
      rw [parseStringBody_esc '"' '"' _ (by decide), ih rest]
    · by_cases h2 : c = '\\'
      · subst h2
        rw [show escChar '\\' = ['\\', '\\'] from rfl]
        rw [show (['\\', '\\'] : List Char) ++ (escBody cs ++ '"' :: rest) =
          '\\' :: '\\' :: (escBody cs ++ '"' :: rest) from rfl]
        rw [parseStringBody_esc '\\' '\\' _ (by decide), ih rest]
      · by_cases h3 : c = '\n'
        · subst h3
          rw [show escChar '\n' = ['\\', 'n'] from rfl]
          rw [show (['\\', 'n'] : List Char) ++ (escBody cs ++ '"' :: rest) =
            '\\' :: 'n' :: (escBody cs ++ '"' :: rest) from rfl]
          rw [parseStringBody_esc 'n' '\n' _ (by decide), ih rest]
        · by_cases h4 : c = '\t'
          · subst h4
            rw [show escChar '\t' = ['\\', 't'] from rfl]
            rw [show (['\\', 't'] : List Char) ++ (escBody cs ++ '"' :: rest) =
              '\\' :: 't' :: (escBody cs ++ '"' :: rest) from rfl]
            rw [parseStringBody_esc 't' '\t' _ (by decide), ih rest]
          · by_cases h5 : c = '\r'
            · subst h5
              rw [show escChar '\r' = ['\\', 'r'] from rfl]
              rw [show (['\\', 'r'] : List Char) ++ (escBody cs ++ '"' :: rest) =
                '\\' :: 'r' :: (escBody cs ++ '"' :: rest) from rfl]
              rw [parseStringBody_esc 'r' '\r' _ (by decide), ih rest]
            · rw [show escChar c = [c] from by
                simp [escChar, h1, h2, h3, h4, h5]]
              rw [show [c] ++ (escBody cs ++ '"' :: rest) =
                c :: (escBody cs ++ '"' :: rest) from rfl]
              rw [parseStringBody_cons c _ h1 h2, ih rest]


theorem parseVal_brackets (f : Nat) (rest : List Char) :
    parseVal (f + 1) ('[' :: ']' :: rest) = some (.arr [], rest) := by
  simp only [parseVal]
  rw [skipWs_of_head '[' _ (by decide)]
  have h2 : skipWs (']' :: rest) = ']' :: rest := skipWs_of_head ']' _ (by decide)
  simp [h2]

theorem parseVal_lbrack (f : Nat) (rest r2 : List Char) (c2 : Char)
    (hsk : skipWs rest = c2 :: r2) (hne : ¬ c2 = ']') :
    parseVal (f + 1) ('[' :: rest) =
      match parseElems f rest with
      | none => none
      | some (xs, r) => some (.arr xs, r) := by
  simp only [parseVal]
  rw [skipWs_of_head '[' _ (by decide)]
  simp [hsk, hne]

theorem parseVal_braces (f : Nat) (rest : List Char) :
    parseVal (f + 1) (lbrace :: rbrace :: rest) = some (.obj [], rest) := by
  simp only [parseVal]
  rw [skipWs_of_head lbrace _ (by decide)]
  have h2 : skipWs (rbrace :: rest) = rbrace :: rest :=
    skipWs_of_head rbrace _ (by decide)
  simp only [if_neg (by decide : ¬ lbrace = 'n'),
    if_neg (by decide : ¬ lbrace = 't'), if_neg (by decide : ¬ lbrace = 'f'),
    if_neg (by decide : ¬ lbrace = '"'), if_neg (by decide : ¬ lbrace = '['),
    if_pos (rfl : lbrace = lbrace), h2]
  simp

theorem parseVal_lbrace (f : Nat) (rest r2 : List Char) (c2 : Char)
    (hsk : skipWs rest = c2 :: r2) (hne : ¬ c2 = rbrace) :
    parseVal (f + 1) (lbrace :: rest) =
      match parseMembers f rest with
      | none => none
      | some (ms, r) => some (.obj ms, r) := by
  simp only [parseVal]
  rw [skipWs_of_head lbrace _ (by decide)]
  simp only [if_neg (by decide : ¬ lbrace = 'n'),
    if_neg (by decide : ¬ lbrace = 't'), if_neg (by decide : ¬ lbrace = 'f'),
    if_neg (by decide : ¬ lbrace = '"'), if_neg (by decide : ¬ lbrace = '['),
    if_pos (rfl : lbrace = lbrace), hsk]
  simp [hne]

theorem parseVal_digit (f : Nat) (c : Char) (rest : List Char)
    (hc : isDig c = true) :
    parseVal (f + 1) (c :: rest) =
      match takeDigits (c :: rest) with
      | ([], _) => none
      | (d :: ds, r) => some (.num ((digitsToNat (d :: ds) : Int)), r) := by
  obtain ⟨hb1, hb2⟩ := (isDig_iff c).mp hc
  have hn : ¬ c = 'n' := char_ne_of_toNat_ne _ _
    (by rw [show ('n' : Char).toNat = 110 from rfl]; omega)
  have ht : ¬ c = 't' := char_ne_of_toNat_ne _ _
    (by rw [show ('t' : Char).toNat = 116 from rfl]; omega)
  have hf : ¬ c = 'f' := char_ne_of_toNat_ne _ _
    (by rw [show ('f' : Char).toNat = 102 from rfl]; omega)
  have hq : ¬ c = '"' := char_ne_of_toNat_ne _ _
    (by rw [show ('"' : Char).toNat = 34 from rfl]; omega)
  have hlb : ¬ c = '[' := char_ne_of_toNat_ne _ _
    (by rw [show ('[' : Char).toNat = 91 from rfl]; omega)
  have hbr : ¬ c = lbrace := char_ne_of_toNat_ne _ _
    (by rw [show lbrace.toNat = 123 from rfl]; omega)
  have hm : ¬ c = '-' := char_ne_of_toNat_ne _ _
    (by rw [show ('-' : Char).toNat = 45 from rfl]; omega)
  simp only [parseVal]
  rw [skipWs_of_head c _ (not_ws_of_toNat_ge c (by omega)).1]
  simp only [if_neg hn, if_neg ht, if_neg hf, if_neg hq, if_neg hlb,
    if_neg hbr, if_neg hm, if_pos hc]

theorem parseVal_neg (f : Nat) (rest : List Char) :
    parseVal (f + 1) ('-' :: rest) =
      match takeDigits rest with
      | ([], _) => none
      | (d :: ds, r) => some (.num (-(digitsToNat (d :: ds) : Int)), r) := by
  simp only [parseVal]
  rw [skipWs_of_head '-' _ (by decide)]
  simp only [if_neg (by decide : ¬ ('-' : Char) = 'n'),
    if_neg (by decide : ¬ ('-' : Char) = 't'),
    if_neg (by decide : ¬ ('-' : Char) = 'f'),
    if_neg (by decide : ¬ ('-' : Char) = '"'),
    if_neg (by decide : ¬ ('-' : Char) = '['),
    if_neg (by decide : ¬ ('-' : Char) = lbrace),
    if_pos (rfl : ('-' : Char) = '-'), if_true]

theorem parseVal_ws (f : Nat) (c : Char) (cs : List Char)
    (h : jsonWs c = true) :
    parseVal (f + 1) (c :: cs) = parseVal (f + 1) cs := by
  simp only [parseVal]
  rw [show skipWs (c :: cs) = skipWs cs from by
    simp [skipWs, List.dropWhile_cons, h]]

theorem parseElems_succ (f : Nat) (cs : List Char) :
    parseElems (f + 1) cs =
      match parseVal f cs with
      | none => none
      | some (v, r) =>
        match skipWs r with
        | [] => none
        | c :: r2 =>
          if c = ',' then
            match parseElems f r2 with
            | none => none
            | some (vs, r3) => some (v :: vs, r3)
          else if c = ']' then some ([v], r2)
          else none := by
  simp only [parseElems]

theorem parseMembers_succ (f : Nat) (cs : List Char) :
    parseMembers (f + 1) cs =
      match skipWs cs with
      | [] => none
      | c0 :: rest =>
        if c0 = '"' then
          match parseStringBody rest with
          | none => none
          | some (k, r) =>
            match skipWs r with
            | [] => none
            | c1 :: r2 =>
              if c1 = ':' then
                match parseVal f r2 with
                | none => none
                | some (v, r3) =>
                  match skipWs r3 with
                  | [] => none
                  | c3 :: r4 =>
                    if c3 = ',' then
                      match parseMembers f r4 with
                      | none => none
                      | some (ms, r5) =>
                        some (consMember (String.mk k) v ms, r5)
                    else if c3 = rbrace then some ([(String.mk k, v)], r4)
                    else none
              else none
        else none := by
  simp only [parseMembers]

/-! ## Round trip: fuel bound -/

theorem serElems_len_cons (x y : Json) (xs : List Json) :
    (serElems (x :: y :: xs)).length =
      (serVal x).length + 2 + (serElems (y :: xs)).length := by
  rw [show serElems (x :: y :: xs) =
    serVal x ++ ',' :: ' ' :: serElems (y :: xs) from by simp [serElems]]
  simp
  omega

theorem serMembers_len_cons (k : String) (v : Json) (m : String × Json)
    (ms : List (String × Json)) :
    (serMembers ((k, v) :: m :: ms)).length =
      (escString k).length + 2 + (serVal v).length + 2 +
        (serMembers (m :: ms)).length := by
  rw [show serMembers ((k, v) :: m :: ms) =
    escString k ++ ':' :: ' ' :: serVal v ++ ',' :: ' ' :: serMembers (m :: ms)
    from by simp [serMembers]]
  simp
  omega

theorem needJ_le : ∀ n : Nat,
    (∀ j, sizeOf j ≤ n → needJ j ≤ (serVal j).length) ∧
    (∀ xs : List Json, sizeOf xs ≤ n →
      needElems xs ≤ 1 + (serElems xs).length) ∧
    (∀ ms : List (String × Json), sizeOf ms ≤ n →
      needMembers ms ≤ 1 + (serMembers ms).length) := by
  intro n
  induction n using Nat.strong_induction_on with
  | _ n ih =>
  refine ⟨?_, ?_, ?_⟩
  · intro j hj
    cases j with
    | null => simp [needJ, serVal]
    | bool b => cases b <;> simp [needJ, serVal]
    | num i =>
      simp only [needJ]
      exact serVal_length_pos _
    | str s => simp only [needJ]; exact serVal_length_pos _
    | arr xs =>
      simp only [needJ]
      rw [show serVal (.arr xs) = '[' :: serElems xs ++ [']'] from by
        simp [serVal]]
      have hsz : sizeOf xs < n := by
        have := Json.arr.sizeOf_spec xs
        omega
      have := (ih (sizeOf xs) hsz).2.1 xs (le_refl _)
      simp
      omega
    | obj ms =>
      simp only [needJ]
      rw [show serVal (.obj ms) = lbrace :: serMembers ms ++ [rbrace] from by
        simp [serVal]]
      have hsz : sizeOf ms < n := by
        have := Json.obj.sizeOf_spec ms
        omega
      have := (ih (sizeOf ms) hsz).2.2 ms (le_refl _)
      simp
      omega
  · intro xs hxs
    cases xs with
    | nil => simp [needElems, serElems]
    | cons x ys =>
      have hszx : sizeOf x < n := by
        have := List.cons.sizeOf_spec x ys
        omega
      have hx := (ih (sizeOf x) hszx).1 x (le_refl _)
      have hxpos := serVal_length_pos x
      cases ys with
      | nil =>
        rw [show needElems [x] = 1 + max (needJ x) (needElems []) from by
          simp [needElems]]
        rw [show serElems [x] = serVal x from by simp [serElems]]
        rw [show needElems ([] : List Json) = 1 from by simp [needElems]]
        omega
      | cons y ys' =>
        have hszy : sizeOf (y :: ys') < n := by
          have := List.cons.sizeOf_spec x (y :: ys')
          omega
        have hy := (ih (sizeOf (y :: ys')) hszy).2.1 (y :: ys') (le_refl _)
        rw [show needElems (x :: y :: ys') =
          1 + max (needJ x) (needElems (y :: ys')) from by simp [needElems]]
        rw [serElems_len_cons]
        omega
  · intro ms hms
    cases ms with
    | nil => simp [needMembers, serMembers]
    | cons kv ms' =>
      obtain ⟨k, v⟩ := kv
      have hszv : sizeOf v < n := by
        have h1 := List.cons.sizeOf_spec (k, v) ms'
        have h2 := Prod.mk.sizeOf_spec k v
        omega
      have hv := (ih (sizeOf v) hszv).1 v (le_refl _)
      have hvpos := serVal_length_pos v
      cases ms' with
      | nil =>
        rw [show needMembers [(k, v)] = 1 + max (needJ v) (needMembers [])
          from by simp [needMembers]]
        rw [show serMembers [(k, v)] = escString k ++ ':' :: ' ' :: serVal v
          from by simp [serMembers]]
        rw [show needMembers ([] : List (String × Json)) = 1 from by
          simp [needMembers]]
        simp
        omega
      | cons m ms'' =>
        have hszm : sizeOf (m :: ms'') < n := by
          have h1 := List.cons.sizeOf_spec (k, v) (m :: ms'')
          omega
        have hm := (ih (sizeOf (m :: ms'')) hszm).2.2 (m :: ms'') (le_refl _)
        rw [show needMembers ((k, v) :: m :: ms'') =
          1 + max (needJ v) (needMembers (m :: ms'')) from by
          simp [needMembers]]
        rw [serMembers_len_cons]
        omega

/-! ## Whitespace congruence for the parser -/

theorem parseVal_ws_any (f : Nat) (c : Char) (cs : List Char)
    (h : jsonWs c = true) : parseVal f (c :: cs) = parseVal f cs := by
  cases f with
  | zero => rfl
  | succ g => exact parseVal_ws g c cs h

theorem parseElems_ws (f : Nat) (c : Char) (cs : List Char)
    (h : jsonWs c = true) :
    parseElems (f + 1) (c :: cs) = parseElems (f + 1) cs := by
  rw [parseElems_succ, parseElems_succ, parseVal_ws_any f c cs h]

theorem parseMembers_ws (f : Nat) (c : Char) (cs : List Char)
    (h : jsonWs c = true) :
    parseMembers (f + 1) (c :: cs) = parseMembers (f + 1) cs := by
  rw [parseMembers_succ, parseMembers_succ,
    show skipWs (c :: cs) = skipWs cs from by
      simp [skipWs, List.dropWhile_cons, h]]

/-! ## Round trip: main induction -/

theorem roundtrip_main : ∀ n : Nat,
    (∀ j, sizeOf j ≤ n → uniqB j = true → ∀ rest F, needJ j ≤ F →
      noDigHead rest → parseVal F (serVal j ++ rest) = some (j, rest)) ∧
    (∀ xs : List Json, sizeOf xs ≤ n → xs ≠ [] → uniqBL xs = true →
      ∀ rest F, needElems xs ≤ F →
      parseElems F (serElems xs ++ ']' :: rest) = some (xs, rest)) ∧
    (∀ ms : List (String × Json), sizeOf ms ≤ n → ms ≠ [] →
      uniqBM ms = true → ∀ rest F, needMembers ms ≤ F →
      parseMembers F (serMembers ms ++ rbrace :: rest) = some (ms, rest)) := by
  intro n
  induction n using Nat.strong_induction_on with
  | _ n ih =>
  refine ⟨?_, ?_, ?_⟩
  · intro j hj hu rest F hF hnd
    cases j with
    | null =>
      rw [show needJ .null = 1 from by simp [needJ]] at hF
      cases F with
      | zero => omega
      | succ f =>
        rw [show serVal Json.null ++ rest = 'n' :: 'u' :: 'l' :: 'l' :: rest
          from by simp [serVal]]
        exact parseVal_null f rest
    | bool b =>
      rw [show needJ (.bool b) = 1 from by simp [needJ]] at hF
      cases F with
      | zero => omega
      | succ f =>
        cases b with
        | true =>
          rw [show serVal (Json.bool true) ++ rest =
            't' :: 'r' :: 'u' :: 'e' :: rest from by simp [serVal]]
          exact parseVal_true f rest
        | false =>
          rw [show serVal (Json.bool false) ++ rest =
            'f' :: 'a' :: 'l' :: 's' :: 'e' :: rest from by simp [serVal]]
          exact parseVal_false f rest
    | num i =>
      rw [show needJ (.num i) = 1 from by simp [needJ]] at hF
      cases F with
      | zero => omega
      | succ f =>
        rw [show serVal (Json.num i) = intChars i from by simp [serVal]]
        obtain ⟨d, ds, hds⟩ :=
          List.exists_cons_of_ne_nil (natToChars_ne_nil i.natAbs)
        have hdig : ∀ c ∈ natToChars i.natAbs, isDig c = true :=
          fun c hc => natToChars_digits _ c hc
        have htd : takeDigits (natToChars i.natAbs ++ rest) =
            (natToChars i.natAbs, rest) := takeDigits_eq _ _ hdig hnd
        unfold intChars
        by_cases hi : i < 0
        · rw [if_pos hi]
          rw [show ('-' :: natToChars i.natAbs) ++ rest =
            '-' :: (natToChars i.natAbs ++ rest) from by simp]
          rw [parseVal_neg f _, htd, hds]
          show some (Json.num (-(digitsToNat (d :: ds) : Int)), rest) =
            some (Json.num i, rest)
          rw [← hds, natToChars_roundtrip]
          have hcast : -(i.natAbs : Int) = i := by omega
          rw [hcast]
        · rw [if_neg hi]
          have hdd : isDig d = true :=
            hdig d (by rw [hds]; exact List.mem_cons_self _ _)
          rw [show natToChars i.natAbs ++ rest = d :: (ds ++ rest) from by
            rw [hds]; simp]
          rw [parseVal_digit f d _ hdd]
          rw [show d :: (ds ++ rest) = natToChars i.natAbs ++ rest from by
            rw [hds]; simp]
          rw [htd, hds]
          show some (Json.num ((digitsToNat (d :: ds) : Int)), rest) =
            some (Json.num i, rest)
          rw [← hds, natToChars_roundtrip]
          have hcast : ((i.natAbs : Nat) : Int) = i := by omega
          rw [hcast]
    | str s =>
      rw [show needJ (.str s) = 1 from by simp [needJ]] at hF
      cases F with
      | zero => omega
      | succ f =>
        rw [show serVal (Json.str s) ++ rest =
          '"' :: (escBody s.data ++ '"' :: rest) from by
          simp [serVal, escString]]
        rw [parseVal_quote f _, parseStringBody_escBody s.data rest]
    | arr xs =>
      cases xs with
      | nil =>
        rw [show needJ (.arr []) = 2 from by simp [needJ, needElems]] at hF
        cases F with
        | zero => omega
        | succ f =>
          rw [show serVal (Json.arr []) ++ rest = '[' :: ']' :: rest from by
            simp [serVal, serElems]]
          exact parseVal_brackets f rest
      | cons x xs' =>
        rw [show needJ (.arr (x :: xs')) = 1 + needElems (x :: xs') from by
          simp [needJ]] at hF
        cases F with
        | zero => omega
        | succ f =>
          obtain ⟨c, cs, hc, hcge, hcne⟩ := serVal_head x
          rw [show serVal (Json.arr (x :: xs')) ++ rest =
            '[' :: (serElems (x :: xs') ++ ']' :: rest) from by simp [serVal]]
          have hhead : ∃ t, serElems (x :: xs') ++ ']' :: rest = c :: t := by
            cases xs' with
            | nil => exact ⟨cs ++ ']' :: rest, by simp [serElems, hc]⟩
            | cons y ys =>
              refine ⟨cs ++ (',' :: ' ' :: serElems (y :: ys)) ++ ']' :: rest,
                ?_⟩
              rw [show serElems (x :: y :: ys) =
                serVal x ++ ',' :: ' ' :: serElems (y :: ys) from by
                simp [serElems], hc]
              simp
          obtain ⟨t, ht⟩ := hhead
          rw [parseVal_lbrack f _ t c
            (by rw [ht]; exact skipWs_of_head c t (not_ws_of_toNat_ge c hcge).1)
            hcne]
          have hsz : sizeOf (x :: xs') < n := by
            have := Json.arr.sizeOf_spec (x :: xs')
            omega
          have hE := (ih (sizeOf (x :: xs')) hsz).2.1 (x :: xs') (le_refl _)
            (by simp) (by simpa [uniqB] using hu) rest f (by omega)
          rw [hE]
    | obj ms =>
      cases ms with
      | nil =>
        rw [show needJ (.obj []) = 2 from by simp [needJ, needMembers]] at hF
        cases F with
        | zero => omega
        | succ f =>
          rw [show serVal (Json.obj []) ++ rest = lbrace :: rbrace :: rest
            from by simp [serVal, serMembers]]
          exact parseVal_braces f rest
      | cons m ms' =>
        rw [show needJ (.obj (m :: ms')) = 1 + needMembers (m :: ms') from by
          simp [needJ]] at hF
        cases F with
        | zero => omega
        | succ f =>
          obtain ⟨k, v⟩ := m
          rw [show serVal (Json.obj ((k, v) :: ms')) ++ rest =
            lbrace :: (serMembers ((k, v) :: ms') ++ rbrace :: rest) from by
            simp [serVal]]
          have hhead : ∃ t, serMembers ((k, v) :: ms') ++ rbrace :: rest =
              '"' :: t := by
            cases ms' with
            | nil =>
              exact ⟨escBody k.data ++ ['"'] ++ ':' :: ' ' :: serVal v ++
                rbrace :: rest, by simp [serMembers, escString]⟩
            | cons m2 ms'' =>
              refine ⟨escBody k.data ++ ['"'] ++ ':' :: ' ' :: serVal v ++
                ',' :: ' ' :: serMembers (m2 :: ms'') ++ rbrace :: rest, ?_⟩
              rw [show serMembers ((k, v) :: m2 :: ms'') = escString k ++
                ':' :: ' ' :: serVal v ++ ',' :: ' ' :: serMembers (m2 :: ms'')
                from by simp [serMembers]]
              simp [escString]
          obtain ⟨t, ht⟩ := hhead
          rw [parseVal_lbrace f _ t '"'
            (by rw [ht]; exact skipWs_of_head '"' t (by decide))
            (by decide)]
          have hsz : sizeOf ((k, v) :: ms') < n := by
            have := Json.obj.sizeOf_spec ((k, v) :: ms')
            omega
          have hM := (ih (sizeOf ((k, v) :: ms')) hsz).2.2 ((k, v) :: ms')
            (le_refl _) (by simp) (by simpa [uniqB] using hu) rest f (by omega)
          rw [hM]
  · intro xs hxs hne hu rest F hF
    cases xs with
    | nil => exact absurd rfl hne
    | cons x ys =>
      rw [show needElems (x :: ys) = 1 + max (needJ x) (needElems ys) from by
        simp [needElems]] at hF
      cases F with
      | zero => omega
      | succ f =>
      have hszx : sizeOf x < n := by
        have := List.cons.sizeOf_spec x ys
        omega
      have hux : uniqB x = true ∧ uniqBL ys = true := by
        simpa [uniqBL] using hu
      rw [parseElems_succ]
      cases ys with
      | nil =>
        rw [show serElems [x] = serVal x from by simp [serElems]]
        have hV := (ih (sizeOf x) hszx).1 x (le_refl _) hux.1 (']' :: rest) f
          (by omega) (by show isDig ']' = false; decide)
        have hsk : skipWs (']' :: rest) = ']' :: rest :=
          skipWs_of_head ']' rest (by decide)
        simp [hV, hsk]
      | cons y ys' =>
        rw [show serElems (x :: y :: ys') ++ ']' :: rest =
          serVal x ++ (',' :: ' ' :: (serElems (y :: ys') ++ ']' :: rest))
          from by
          rw [show serElems (x :: y :: ys') =
            serVal x ++ ',' :: ' ' :: serElems (y :: ys') from by
            simp [serElems]]
          simp]
        have hV := (ih (sizeOf x) hszx).1 x (le_refl _) hux.1
          (',' :: ' ' :: (serElems (y :: ys') ++ ']' :: rest)) f
          (by omega) (by show isDig ',' = false; decide)
        have hsk : skipWs (',' :: ' ' :: (serElems (y :: ys') ++ ']' :: rest))
            = ',' :: ' ' :: (serElems (y :: ys') ++ ']' :: rest) :=
          skipWs_of_head ',' _ (by decide)
        have hszy : sizeOf (y :: ys') < n := by
          have := List.cons.sizeOf_spec x (y :: ys')
          omega
        have hfpos : 1 ≤ f := by
          have : 1 ≤ needElems (y :: ys') := by simp [needElems]
          omega
        obtain ⟨f', rfl⟩ : ∃ f', f = f' + 1 :=
          ⟨f - 1, by omega⟩
        have hE := (ih (sizeOf (y :: ys')) hszy).2.1 (y :: ys') (le_refl _)
          (by simp) hux.2 rest (f' + 1) (by omega)
        have hws : parseElems (f' + 1)
            (' ' :: (serElems (y :: ys') ++ ']' :: rest)) =
            parseElems (f' + 1) (serElems (y :: ys') ++ ']' :: rest) :=
          parseElems_ws f' ' ' _ (by decide)
        simp [hV, hsk, hws, hE]
  · intro ms hms hne hu rest F hF
    cases ms with
    | nil => exact absurd rfl hne
    | cons kv ms' =>
      obtain ⟨k, v⟩ := kv
      rw [show needMembers ((k, v) :: ms') =
        1 + max (needJ v) (needMembers ms') from by simp [needMembers]] at hF
      cases F with
      | zero => omega
      | succ f =>
      have hszv : sizeOf v < n := by
        have h1 := List.cons.sizeOf_spec (k, v) ms'
        have h2 := Prod.mk.sizeOf_spec k v
        omega
      have huv : (jlookup ms' k = none ∧ uniqB v = true) ∧
          uniqBM ms' = true := by
        simpa [uniqBM, Option.not_isSome_iff_eq_none] using hu
      rw [parseMembers_succ]
      cases ms' with
      | nil =>
        rw [show serMembers [(k, v)] ++ rbrace :: rest =
          '"' :: (escBody k.data ++
            '"' :: (':' :: (' ' :: (serVal v ++ rbrace :: rest)))) from by
          simp [serMembers, escString]]
        have hsk1 : skipWs ('"' :: (escBody k.data ++
            '"' :: (':' :: (' ' :: (serVal v ++ rbrace :: rest))))) =
            '"' :: (escBody k.data ++
            '"' :: (':' :: (' ' :: (serVal v ++ rbrace :: rest)))) :=
          skipWs_of_head '"' _ (by decide)
        have hps := parseStringBody_escBody k.data
          (':' :: (' ' :: (serVal v ++ rbrace :: rest)))
        have hsk2 : skipWs (':' :: (' ' :: (serVal v ++ rbrace :: rest))) =
            ':' :: (' ' :: (serVal v ++ rbrace :: rest)) :=
          skipWs_of_head ':' _ (by decide)
        have hwv : parseVal f (' ' :: (serVal v ++ rbrace :: rest)) =
            parseVal f (serVal v ++ rbrace :: rest) :=
          parseVal_ws_any f ' ' _ (by decide)
        have hV := (ih (sizeOf v) hszv).1 v (le_refl _) huv.1.2
          (rbrace :: rest) f (by omega)
          (by show isDig rbrace = false; decide)
        have hsk3 : skipWs (rbrace :: rest) = rbrace :: rest :=
          skipWs_of_head rbrace rest (by decide)
        simp [hsk1, hps, hsk2, hwv, hV, hsk3,
          (by decide : ¬ rbrace = ','), (by decide : ¬ (':' : Char) = ','),
          String.mk]
      | cons m2 ms'' =>
        rw [show serMembers ((k, v) :: m2 :: ms'') ++ rbrace :: rest =
          '"' :: (escBody k.data ++ '"' :: (':' :: (' ' :: (serVal v ++
            ',' :: (' ' :: (serMembers (m2 :: ms'') ++ rbrace :: rest))))))
          from by
          rw [show serMembers ((k, v) :: m2 :: ms'') = escString k ++
            ':' :: ' ' :: serVal v ++ ',' :: ' ' :: serMembers (m2 :: ms'')
            from by simp [serMembers]]
          simp [escString]]
        have hps := parseStringBody_escBody k.data
          (':' :: (' ' :: (serVal v ++ ',' :: (' ' ::
            (serMembers (m2 :: ms'') ++ rbrace :: rest)))))
        have hsk1 : ∀ u : List Char, skipWs ('"' :: u) = '"' :: u :=
          fun u => skipWs_of_head '"' u (by decide)
        have hsk2 : ∀ u : List Char, skipWs (':' :: u) = ':' :: u :=
          fun u => skipWs_of_head ':' u (by decide)
        have hsk4 : ∀ u : List Char, skipWs (',' :: u) = ',' :: u :=
          fun u => skipWs_of_head ',' u (by decide)
        have hwv : parseVal f (' ' :: (serVal v ++ ',' :: (' ' ::
            (serMembers (m2 :: ms'') ++ rbrace :: rest)))) =
            parseVal f (serVal v ++ ',' :: (' ' ::
            (serMembers (m2 :: ms'') ++ rbrace :: rest))) :=
          parseVal_ws_any f ' ' _ (by decide)
        have hV := (ih (sizeOf v) hszv).1 v (le_refl _) huv.1.2
          (',' :: (' ' :: (serMembers (m2 :: ms'') ++ rbrace :: rest))) f
          (by omega) (by show isDig ',' = false; decide)
        have hszm : sizeOf (m2 :: ms'') < n := by
          have := List.cons.sizeOf_spec (k, v) (m2 :: ms'')
          omega
        have hfpos : 1 ≤ f := by
          have : 1 ≤ needMembers (m2 :: ms'') := by
            cases m2 with
            | mk k2 v2 => simp [needMembers]
          omega
        obtain ⟨f', rfl⟩ : ∃ f', f = f' + 1 := ⟨f - 1, by omega⟩
        have hM := (ih (sizeOf (m2 :: ms'')) hszm).2.2 (m2 :: ms'')
          (le_refl _) (by simp) huv.2 rest (f' + 1) (by omega)
        have hwm : parseMembers (f' + 1) (' ' ::
            (serMembers (m2 :: ms'') ++ rbrace :: rest)) =
            parseMembers (f' + 1) (serMembers (m2 :: ms'') ++ rbrace :: rest)
          := parseMembers_ws f' ' ' _ (by decide)
        have hcons : consMember k v (m2 :: ms'') = (k, v) :: m2 :: ms'' := by
          unfold consMember
          rw [huv.1.1]
        simp [hps, hsk1, hsk2, hsk4, hwv, hV, hM, hwm, hcons,
          (by decide : ¬ (':' : Char) = ','), String.mk]

theorem parseJson_serVal (j : Json) (hu : uniqB j = true) :
    parseJson (serVal j) = some j := by
  have hb := (needJ_le (sizeOf j)).1 j (le_refl _)
  have h := (roundtrip_main (sizeOf j)).1 j (le_refl _) hu []
    (2 * (serVal j).length + 2) (by omega) trivial
  rw [List.append_nil] at h
  unfold parseJson
  rw [h]
  rfl

/-! ## Every parsed value has unique object keys -/

theorem jlookup_eraseKey_self (ms : List (String × Json)) (k : String) :
    jlookup (eraseKey ms k) k = none := by
  induction ms with
  | nil => rfl
  | cons kv rest ih =>
    obtain ⟨k', v'⟩ := kv
    by_cases hk : k' = k
    · simp [eraseKey, hk, ih]
    · simp [eraseKey, hk, jlookup, ih]

theorem jlookup_eraseKey_none (ms : List (String × Json)) (k key : String)
    (h : jlookup ms k = none) : jlookup (eraseKey ms key) k = none := by
  induction ms with
  | nil => rfl
  | cons kv rest ih =>
    obtain ⟨k', v'⟩ := kv
    by_cases hk' : k' = k
    · simp [jlookup, hk'] at h
    · simp only [jlookup, if_neg hk'] at h
      by_cases hkey : k' = key
      · simp [eraseKey, hkey, ih h]
      · simp [eraseKey, hkey, jlookup, hk', ih h]

theorem uniqBM_eraseKey (ms : List (String × Json)) (key : String)
    (h : uniqBM ms = true) : uniqBM (eraseKey ms key) = true := by
  induction ms with
  | nil => rfl
  | cons kv rest ih =>
    obtain ⟨k', v'⟩ := kv
    have hh : (jlookup rest k' = none ∧ uniqB v' = true) ∧ uniqBM rest = true
      := by simpa [uniqBM, Option.not_isSome_iff_eq_none] using h
    by_cases hkey : k' = key
    · simp only [eraseKey, if_pos hkey]
      exact ih hh.2
    · simp only [eraseKey, if_neg hkey]
      have h1 := jlookup_eraseKey_none rest k' key hh.1.1
      simp [uniqBM, Option.not_isSome_iff_eq_none, h1, hh.1.2, ih hh.2]

theorem uniqB_of_jlookup (ms : List (String × Json)) (k : String) (v : Json)
    (hm : uniqBM ms = true) (hl : jlookup ms k = some v) :
    uniqB v = true := by
  induction ms with
  | nil => exact Option.noConfusion hl
  | cons kv rest ih =>
    obtain ⟨k', v'⟩ := kv
    have hh : (jlookup rest k' = none ∧ uniqB v' = true) ∧ uniqBM rest = true
      := by simpa [uniqBM, Option.not_isSome_iff_eq_none] using hm
    by_cases hk : k' = k
    · simp only [jlookup, if_pos hk] at hl
      cases hl
      exact hh.1.2
    · simp only [jlookup, if_neg hk] at hl
      exact ih hh.2 hl

theorem uniqBM_consMember (k : String) (v : Json) (ms : List (String × Json))
    (hv : uniqB v = true) (hm : uniqBM ms = true) :
    uniqBM (consMember k v ms) = true := by
  unfold consMember
  cases hl : jlookup ms k with
  | none =>
    simp [uniqBM, Option.not_isSome_iff_eq_none, hl, hv, hm]
  | some v' =>
    simp [uniqBM, Option.not_isSome_iff_eq_none, jlookup_eraseKey_self,
      uniqB_of_jlookup ms k v' hm hl, uniqBM_eraseKey ms k hm]

theorem parser_uniq : ∀ F : Nat,
    (∀ cs j r, parseVal F cs = some (j, r) → uniqB j = true) ∧
    (∀ cs xs r, parseElems F cs = some (xs, r) → uniqBL xs = true) ∧
    (∀ cs ms r, parseMembers F cs = some (ms, r) → uniqBM ms = true) := by
  intro F
  induction F with
  | zero =>
    refine ⟨?_, ?_, ?_⟩ <;> intro cs a r h
    · rw [show parseVal 0 cs = none from by rw [parseVal.eq_def]] at h
      exact Option.noConfusion h
    · rw [show parseElems 0 cs = none from by rw [parseElems.eq_def]] at h
      exact Option.noConfusion h
    · rw [show parseMembers 0 cs = none from by rw [parseMembers.eq_def]] at h
      exact Option.noConfusion h
  | succ f ihF =>
    obtain ⟨ihV, ihE, ihM⟩ := ihF
    refine ⟨?_, ?_, ?_⟩
    · intro cs j r h
      simp only [parseVal] at h
      split at h
      · exact Option.noConfusion h
      · split at h
        · -- 'n'
          split at h
          · cases h; simp [uniqB]
          · exact Option.noConfusion h
        · split at h
          · -- 't'
            split at h
            · cases h; simp [uniqB]
            · exact Option.noConfusion h
          · split at h
            · -- 'f'
              split at h
              · cases h; simp [uniqB]
              · exact Option.noConfusion h
            · split at h
              · -- '"'
                split at h
                · exact Option.noConfusion h
                · cases h; simp [uniqB]
              · split at h
                · -- '['
                  split at h
                  · exact Option.noConfusion h
                  · split at h
                    · cases h; simp [uniqB, uniqBL]
                    · split at h
                      · exact Option.noConfusion h
                      · rename_i xs r2 heq
                        cases h
                        simp only [uniqB]
                        exact ihE _ _ _ heq
                · split at h
                  · -- lbrace
                    split at h
                    · exact Option.noConfusion h
                    · split at h
                      · cases h; simp [uniqB, uniqBM]
                      · split at h
                        · exact Option.noConfusion h
                        · rename_i ms r2 heq
                          cases h
                          simp only [uniqB]
                          exact ihM _ _ _ heq
                  · split at h
                    · -- '-'
                      split at h
                      · exact Option.noConfusion h
                      · cases h; simp [uniqB]
                    · split at h
                      · -- digit
                        split at h
                        · exact Option.noConfusion h
                        · cases h; simp [uniqB]
                      · exact Option.noConfusion h
    · intro cs xs r h
      simp only [parseElems] at h
      split at h
      · exact Option.noConfusion h
      · rename_i v r1 hveq
        split at h
        · exact Option.noConfusion h
        · split at h
          · split at h
            · exact Option.noConfusion h
            · rename_i vs r3 heq2
              cases h
              simp only [uniqBL, Bool.and_eq_true]
              exact ⟨ihV _ _ _ hveq, ihE _ _ _ heq2⟩
          · split at h
            · cases h
              simp only [uniqBL, Bool.and_eq_true]
              exact ⟨ihV _ _ _ hveq, trivial⟩
            · exact Option.noConfusion h
    · intro cs ms r h
      simp only [parseMembers] at h
      split at h
      · exact Option.noConfusion h
      · split at h
        · split at h
          · exact Option.noConfusion h
          · rename_i k r1 hkeq
            split at h
            · exact Option.noConfusion h
            · split at h
              · split at h
                · exact Option.noConfusion h
                · rename_i v r3 hveq
                  split at h
                  · exact Option.noConfusion h
                  · split at h
                    · split at h
                      · exact Option.noConfusion h
                      · rename_i ms2 r5 hmeq
                        cases h
                        exact uniqBM_consMember _ _ _
                          (ihV _ _ _ hveq) (ihM _ _ _ hmeq)
                    · split at h
                      · cases h
                        simp [uniqBM, Option.not_isSome_iff_eq_none,
                          jlookup, ihV _ _ _ hveq]
                      · exact Option.noConfusion h
              · exact Option.noConfusion h
        · exact Option.noConfusion h

theorem parseJson_uniq (cs : List Char) (j : Json) (h : parseJson cs = some j) :
    uniqB j = true := by
  unfold parseJson at h
  cases hpv : parseVal (2 * cs.length + 2) cs with
  | none => rw [hpv] at h; exact Option.noConfusion h
  | some p =>
    obtain ⟨j', rest⟩ := p
    rw [hpv] at h
    rw [show (match some (j', rest) with
      | some (j, rest) => if (skipWs rest).isEmpty = true then some j else none
      | none => none) =
      (if (skipWs rest).isEmpty = true then some j' else none) from rfl] at h
    by_cases he : (skipWs rest).isEmpty = true
    · rw [if_pos he] at h
      cases h
      exact (parser_uniq _).1 cs _ rest hpv
    · rw [if_neg he] at h
      exact Option.noConfusion h

theorem extractJson_ok_parsed (cs : List Char) (r : Json)
    (h : extractJson cs = .ok r) : ∃ d, parseJson d = some r := by
  cases hp : parseJson cs with
  | some j =>
    rw [extractJson_of_loads_ok _ _ (loads_ok _ _ hp)] at h
    cases h
    exact ⟨cs, hp⟩
  | none =>
    rw [extractJson_of_loads_error _ _ (loads_error _ hp)] at h
    unfold extractFallback at h
    by_cases h1 : containsSub cs fenceJson = true
    · rw [if_pos h1] at h
      cases hp2 : parseJson (pyStrip
        ((splitOnSub ((splitOnSub cs fenceJson).getD 1 []) fence).headD []))
        with
      | some j2 => rw [loads_ok _ _ hp2] at h; cases h; exact ⟨_, hp2⟩
      | none => rw [loads_error _ hp2] at h; exact Except.noConfusion h
    · rw [if_neg h1] at h
      by_cases h2 : containsSub cs fence = true
      · rw [if_pos h2] at h
        cases hp2 : parseJson (pyStrip
          ((splitOnSub ((splitOnSub cs fence).getD 1 []) fence).headD []))
          with
        | some j2 => rw [loads_ok _ _ hp2] at h; cases h; exact ⟨_, hp2⟩
        | none => rw [loads_error _ hp2] at h; exact Except.noConfusion h
      · rw [if_neg h2] at h
        exact Except.noConfusion h

/-! ## Claim C8 -/

/-- C8: any TransformedSkill produced by a successful call, serialized
to JSON text and reparsed, yields the identical object, which passes the
Structural Validator again with no violations. -/
theorem C8_roundtrip_revalidates (skill : Skill) (invoke : String → String)
    (j : Json) (h : transform_skill skill invoke = .ok j) :
    parseJson ((dumps j).data) = some j ∧ validateSkill j = .ok j := by
  rw [transform_eq] at h
  cases hx : extractJson (pyStrip (invoke (buildPrompt skill)).data) with
  | error e => rw [hx] at h; exact Except.noConfusion h
  | ok r =>
    rw [hx] at h
    obtain ⟨hrj, -⟩ := validateSkill_ok_shape r j h
    subst hrj
    obtain ⟨d, hd⟩ := extractJson_ok_parsed _ _ hx
    have hu : uniqB j = true := parseJson_uniq d j hd
    refine ⟨?_, h⟩
    show parseJson (String.mk (serVal j)).data = some j
    rw [show (String.mk (serVal j)).data = serVal j from rfl]
    exact parseJson_serVal j hu

/-- Witness for C8 at a concrete success. -/
theorem C8_witness :
    parseJson ((dumps goodCand).data) = some goodCand ∧
      validateSkill goodCand = .ok goodCand :=
  C8_roundtrip_revalidates sampleSkill (fun _ => dumps goodCand) goodCand rfl

/-! ## Claim C3: fence-wrapping lemmas -/

def bq : Char := Char.ofNat 96

/-- The claim's json-tagged fenced wrapping of a JSON text. -/
def wrapJsonFence (t : List Char) : List Char :=
  "```json\n".data ++ t ++ "\n```".data

/-- The claim's untagged fenced wrapping of a JSON text. -/
def wrapFence (t : List Char) : List Char :=
  "```\n".data ++ t ++ "\n```".data

theorem lpre_self_append (xs t : List Char) : lpre xs (xs ++ t) = true :=
  lpre_extend xs xs t (lpre_refl xs)

theorem containsSub_of_head (s : Char) (ss rest : List Char) :
    containsSub ((s :: ss) ++ rest) (s :: ss) = true := by
  rw [show (s :: ss) ++ rest = s :: (ss ++ rest) from rfl]
  simp only [containsSub, Bool.or_eq_true]
  exact Or.inl (lpre_self_append (s :: ss) rest)

theorem splitOnAux_nil (sep : List Char) (f : Nat) (acc : List Char) :
    splitOnAux sep f [] acc = [acc.reverse] := by
  cases f <;> rfl

theorem splitOnAux_not (sep : List Char) (f : Nat) (c : Char)
    (rest acc : List Char) (h : lpre sep (c :: rest) = false) :
    splitOnAux sep (f + 1) (c :: rest) acc =
      splitOnAux sep f rest (c :: acc) := by
  simp only [splitOnAux, h]
  simp

theorem splitOnAux_hit (s : Char) (ss : List Char) (f : Nat)
    (rest acc : List Char) :
    splitOnAux (s :: ss) (f + 1) ((s :: ss) ++ rest) acc =
      acc.reverse :: splitOnAux (s :: ss) f rest [] := by
  rw [show (s :: ss) ++ rest = s :: (ss ++ rest) from rfl]
  simp only [splitOnAux]
  rw [if_pos (by
    rw [show s :: (ss ++ rest) = (s :: ss) ++ rest from rfl]
    exact lpre_self_append (s :: ss) rest)]
  rw [show s :: (ss ++ rest) = (s :: ss) ++ rest from rfl, List.drop_left]

theorem splitOnAux_skip (s : Char) (ss : List Char) :
    ∀ (pre : List Char) (f : Nat) (tail acc : List Char),
      (∀ c ∈ pre, (s == c) = false) →
      splitOnAux (s :: ss) (pre.length + f) (pre ++ tail) acc =
        splitOnAux (s :: ss) f tail (pre.reverse ++ acc) := by
  intro pre
  induction pre with
  | nil => intro f tail acc _; simp
  | cons p pre' ih =>
    intro f tail acc hne
    have hp : (s == p) = false := hne p (List.mem_cons_self _ _)
    rw [show (p :: pre').length + f = (pre'.length + f) + 1 from by
      simp; omega]
    rw [show (p :: pre') ++ tail = p :: (pre' ++ tail) from rfl]
    rw [splitOnAux_not _ _ _ _ _ (by
      simp only [lpre, hp, Bool.false_and])]
    rw [ih f tail (p :: acc) (fun c hc => hne c (List.mem_cons_of_mem p hc))]
    simp

theorem containsSub_no_head (s : Char) (ss : List Char) :
    ∀ (pre tail : List Char), (∀ c ∈ pre, (s == c) = false) →
      containsSub (pre ++ tail) (s :: ss) = containsSub tail (s :: ss) := by
  intro pre
  induction pre with
  | nil => intro tail _; rfl
  | cons p pre' ih =>
    intro tail hne
    have hp : (s == p) = false := hne p (List.mem_cons_self _ _)
    rw [show (p :: pre') ++ tail = p :: (pre' ++ tail) from rfl]
    simp only [containsSub, lpre, hp, Bool.false_and, Bool.false_or]
    exact ih tail (fun c hc => hne c (List.mem_cons_of_mem p hc))

theorem parseVal_backtick (F : Nat) (cs : List Char) :
    parseVal F (bq :: cs) = none := by
  cases F with
  | zero => rw [show parseVal 0 (bq :: cs) = none from by rw [parseVal.eq_def]]
  | succ f =>
    simp only [parseVal]
    rw [skipWs_of_head bq _ (by decide)]
    simp only [if_neg (by decide : ¬ bq = 'n'),
      if_neg (by decide : ¬ bq = 't'), if_neg (by decide : ¬ bq = 'f'),
      if_neg (by decide : ¬ bq = '"'), if_neg (by decide : ¬ bq = '['),
      if_neg (by decide : ¬ bq = lbrace), if_neg (by decide : ¬ bq = '-'),
      if_neg (by decide : ¬ isDig bq = true)]

theorem parseJson_backtick (cs : List Char) :
    parseJson (bq :: cs) = none := by
  unfold parseJson
  rw [parseVal_backtick]

theorem pyStrip_newline_wrap (t : List Char)
    (hhead : ∀ c, t.head? = some c → pyIsSpace c = false)
    (hlast : ∀ c, t.getLast? = some c → pyIsSpace c = false) :
    pyStrip ('\n' :: (t ++ ['\n'])) = t := by
  unfold pyStrip
  rw [List.dropWhile_cons]
  rw [if_pos (by decide : pyIsSpace '\n' = true)]
  cases t with
  | nil => decide
  | cons c t' =>
    have hc : pyIsSpace c = false := hhead c rfl
    rw [show (c :: t') ++ ['\n'] = c :: (t' ++ ['\n']) from rfl,
      List.dropWhile_cons, if_neg (by simp [hc])]
    rw [show c :: (t' ++ ['\n']) = (c :: t') ++ ['\n'] from rfl]
    rw [List.reverse_append]
    rw [show (['\n'] : List Char).reverse = ['\n'] from rfl]
    rw [show (['\n'] : List Char) ++ (c :: t').reverse =
      '\n' :: (c :: t').reverse from rfl]
    rw [List.dropWhile_cons, if_pos (by decide : pyIsSpace '\n' = true)]
    cases hrev : (c :: t').reverse with
    | nil => exact absurd hrev (by simp)
    | cons d rev' =>
      have hd : pyIsSpace d = false := by
        apply hlast
        rw [← List.head?_reverse, hrev]
        rfl
      rw [List.dropWhile_cons, if_neg (by simp [hd]), ← hrev,
        List.reverse_reverse]

theorem pre_no_bq (t : List Char) (ht : ∀ c ∈ t, c ≠ bq) :
    ∀ c ∈ '\n' :: (t ++ ['\n']), (bq == c) = false := by
  intro c hc
  rw [beq_eq_false_iff_ne]
  rcases List.mem_cons.mp hc with rfl | hc2
  · decide
  · rcases List.mem_append.mp hc2 with hc3 | hc3
    · exact Ne.symm (ht c hc3)
    · rcases List.mem_singleton.mp hc3 with rfl
      decide

theorem splitOnAux_self (s : Char) (ss : List Char) (f : Nat)
    (acc : List Char) :
    splitOnAux (s :: ss) (f + 1) (s :: ss) acc = [acc.reverse, []] := by
  have h := splitOnAux_hit s ss f [] acc
  rw [List.append_nil] at h
  rw [h, splitOnAux_nil]
  rfl

theorem splitOnSub_all_skip (s : Char) (ss pre : List Char)
    (h : ∀ c ∈ pre, (s == c) = false) :
    splitOnSub pre (s :: ss) = [pre] := by
  rw [show splitOnSub pre (s :: ss) = splitOnAux (s :: ss) pre.length pre []
    from rfl]
  rw [show splitOnAux (s :: ss) pre.length pre [] =
    splitOnAux (s :: ss) (pre.length + 0) (pre ++ []) [] from by simp]
  rw [splitOnAux_skip s ss pre 0 [] [] h, splitOnAux_nil]
  simp

theorem split_wrapJson (t : List Char) (ht : ∀ c ∈ t, c ≠ bq) :
    splitOnSub (wrapJsonFence t) fenceJson =
      [[], '\n' :: (t ++ '\n' :: fence)] := by
  have hw : wrapJsonFence t = fenceJson ++ ('\n' :: (t ++ '\n' :: fence)) :=
    by simp [wrapJsonFence, fenceJson, fence]
  rw [hw]
  rw [show splitOnSub (fenceJson ++ ('\n' :: (t ++ '\n' :: fence))) fenceJson
    = splitOnAux fenceJson
      (fenceJson ++ ('\n' :: (t ++ '\n' :: fence))).length
      (fenceJson ++ ('\n' :: (t ++ '\n' :: fence))) [] from rfl]
  rw [show (fenceJson ++ ('\n' :: (t ++ '\n' :: fence))).length =
    (t.length + 11) + 1 from by simp [fenceJson, fence]]
  rw [show fenceJson = bq :: (bq :: bq :: 'j' :: 's' :: 'o' :: 'n' :: [])
    from rfl]
  rw [splitOnAux_hit]
  rw [show '\n' :: (t ++ '\n' :: fence) = ('\n' :: (t ++ ['\n'])) ++ fence
    from by simp]
  rw [show t.length + 11 = ('\n' :: (t ++ ['\n'])).length + 9 from by
    simp]
  rw [splitOnAux_skip bq _ ('\n' :: (t ++ ['\n'])) 9 fence []
    (pre_no_bq t ht)]
  rw [show fence = bq :: bq :: bq :: ([] : List Char) from rfl]
  rw [show (9 : Nat) = 8 + 1 from rfl]
  rw [splitOnAux_not _ _ _ _ _ (by decide)]
  rw [show (8 : Nat) = 7 + 1 from rfl]
  rw [splitOnAux_not _ _ _ _ _ (by decide)]
  rw [show (7 : Nat) = 6 + 1 from rfl]
  rw [splitOnAux_not _ _ _ _ _ (by decide)]
  rw [splitOnAux_nil]
  simp

theorem split_part_fence (t : List Char) (ht : ∀ c ∈ t, c ≠ bq) :
    splitOnSub ('\n' :: (t ++ '\n' :: fence)) fence =
      ['\n' :: (t ++ ['\n']), []] := by
  rw [show ('\n' :: (t ++ '\n' :: fence)) = ('\n' :: (t ++ ['\n'])) ++ fence
    from by simp]
  rw [show splitOnSub ((('\n' :: (t ++ ['\n'])) ++ fence)) fence
    = splitOnAux fence ((('\n' :: (t ++ ['\n'])) ++ fence)).length
      ((('\n' :: (t ++ ['\n'])) ++ fence)) [] from rfl]
  rw [show ((('\n' :: (t ++ ['\n'])) ++ fence)).length =
    ('\n' :: (t ++ ['\n'])).length + 3 from by simp [fence]]
  rw [show fence = bq :: bq :: bq :: ([] : List Char) from rfl]
  rw [splitOnAux_skip bq _ ('\n' :: (t ++ ['\n'])) 3
    (bq :: bq :: bq :: ([] : List Char)) [] (pre_no_bq t ht)]
  rw [show (3 : Nat) = 2 + 1 from rfl]
  rw [splitOnAux_self]
  simp

theorem split_wrapFence (t : List Char) (ht : ∀ c ∈ t, c ≠ bq) :
    splitOnSub (wrapFence t) fence = [[], '\n' :: (t ++ ['\n']), []] := by
  have hw : wrapFence t = fence ++ (('\n' :: (t ++ ['\n'])) ++ fence) :=
    by simp [wrapFence, fence]
  rw [hw]
  rw [show splitOnSub (fence ++ (('\n' :: (t ++ ['\n'])) ++ fence)) fence
    = splitOnAux fence
      (fence ++ (('\n' :: (t ++ ['\n'])) ++ fence)).length
      (fence ++ (('\n' :: (t ++ ['\n'])) ++ fence)) [] from rfl]
  rw [show (fence ++ (('\n' :: (t ++ ['\n'])) ++ fence)).length =
    (t.length + 7) + 1 from by simp [fence]]
  rw [show fence = bq :: (bq :: bq :: []) from rfl]
  rw [splitOnAux_hit]
  rw [show t.length + 7 = ('\n' :: (t ++ ['\n'])).length + 5 from by
    simp]
  rw [splitOnAux_skip bq _ ('\n' :: (t ++ ['\n'])) 5 (bq :: (bq :: bq :: []))
    [] (pre_no_bq t ht)]
  rw [show (5 : Nat) = 4 + 1 from rfl]
  rw [splitOnAux_self]
  simp

theorem containsSub_cons_false (c : Char) (rest needle : List Char)
    (h1 : lpre needle (c :: rest) = false) :
    containsSub (c :: rest) needle = containsSub rest needle := by
  simp only [containsSub, h1, Bool.false_or]

theorem wrapJson_contains_fenceJson (t : List Char) :
    containsSub (wrapJsonFence t) fenceJson = true := by
  rw [show wrapJsonFence t = fenceJson ++ ('\n' :: (t ++ '\n' :: fence))
    from by simp [wrapJsonFence, fenceJson, fence]]
  rw [show fenceJson = bq :: (bq :: bq :: 'j' :: 's' :: 'o' :: 'n' :: [])
    from rfl]
  exact containsSub_of_head _ _ _

theorem wrapFence_contains_fence (t : List Char) :
    containsSub (wrapFence t) fence = true := by
  rw [show wrapFence t = fence ++ (('\n' :: (t ++ ['\n'])) ++ fence)
    from by simp [wrapFence, fence]]
  rw [show fence = bq :: (bq :: bq :: []) from rfl]
  exact containsSub_of_head _ _ _

theorem wrapFence_no_fenceJson (t : List Char) (ht : ∀ c ∈ t, c ≠ bq) :
    containsSub (wrapFence t) fenceJson = false := by
  rw [show wrapFence t =
    bq :: (bq :: (bq :: ('\n' :: (t ++ '\n' :: fence)))) from rfl]
  rw [containsSub_cons_false bq (bq :: (bq :: ('\n' :: (t ++ '\n' :: fence))))
    fenceJson rfl]
  rw [containsSub_cons_false bq (bq :: ('\n' :: (t ++ '\n' :: fence)))
    fenceJson rfl]
  rw [containsSub_cons_false bq ('\n' :: (t ++ '\n' :: fence))
    fenceJson rfl]
  rw [show '\n' :: (t ++ '\n' :: fence) = ('\n' :: (t ++ ['\n'])) ++ fence
    from by simp]
  rw [show fenceJson = bq :: (bq :: bq :: 'j' :: 's' :: 'o' :: 'n' :: [])
    from rfl]
  rw [containsSub_no_head bq _ ('\n' :: (t ++ ['\n'])) fence
    (pre_no_bq t ht)]
  decide

/-- On a json-tagged fence wrap of a backtick-free text with non-space
first and last characters, the extractor reduces to parsing the inner
text: tier 1 fails on the leading backtick, tier 2 recovers the wrapped
text exactly. -/
theorem extractJson_wrapJson (t : List Char) (ht : ∀ c ∈ t, c ≠ bq)
    (hhead : ∀ c, t.head? = some c → pyIsSpace c = false)
    (hlast : ∀ c, t.getLast? = some c → pyIsSpace c = false) :
    extractJson (wrapJsonFence t) = loads t := by
  have hfail : loads (wrapJsonFence t) =
      .error (.jsonDecodeError (wrapJsonFence t)) := by
    apply loads_error
    rw [show wrapJsonFence t = bq :: (bq :: bq :: 'j' :: 's' :: 'o' :: 'n' ::
      '\n' :: (t ++ '\n' :: fence)) from rfl]
    exact parseJson_backtick _
  rw [extractJson_of_loads_error _ _ hfail]
  unfold extractFallback
  rw [if_pos (wrapJson_contains_fenceJson t)]
  rw [split_wrapJson t ht]
  rw [show ([[], '\n' :: (t ++ '\n' :: fence)] : List (List Char)).getD 1 []
    = '\n' :: (t ++ '\n' :: fence) from rfl]
  rw [split_part_fence t ht]
  rw [show (['\n' :: (t ++ ['\n']), []] : List (List Char)).headD []
    = '\n' :: (t ++ ['\n']) from rfl]
  rw [pyStrip_newline_wrap t hhead hlast]

/-- On an untagged fence wrap of a backtick-free text with non-space
first and last characters, the extractor reduces to parsing the inner
text: tier 1 fails on the leading backtick, tier 2 does not match, tier
3 recovers the wrapped text exactly. -/
theorem extractJson_wrapFence (t : List Char) (ht : ∀ c ∈ t, c ≠ bq)
    (hhead : ∀ c, t.head? = some c → pyIsSpace c = false)
    (hlast : ∀ c, t.getLast? = some c → pyIsSpace c = false) :
    extractJson (wrapFence t) = loads t := by
  have hfail : loads (wrapFence t) =
      .error (.jsonDecodeError (wrapFence t)) := by
    apply loads_error
    rw [show wrapFence t = bq :: (bq :: bq :: '\n' :: (t ++ '\n' :: fence))
      from rfl]
    exact parseJson_backtick _
  rw [extractJson_of_loads_error _ _ hfail]
  unfold extractFallback
  rw [if_neg (by simp [wrapFence_no_fenceJson t ht])]
  rw [if_pos (wrapFence_contains_fence t)]
  rw [split_wrapFence t ht]
  rw [show ([[], '\n' :: (t ++ ['\n']), []] : List (List Char)).getD 1 []
    = '\n' :: (t ++ ['\n']) from rfl]
  rw [show fence = bq :: (bq :: bq :: []) from rfl]
  rw [splitOnSub_all_skip bq (bq :: bq :: []) ('\n' :: (t ++ ['\n']))
    (pre_no_bq t ht)]
  rw [show (['\n' :: (t ++ ['\n'])] : List (List Char)).headD []
    = '\n' :: (t ++ ['\n']) from rfl]
  rw [pyStrip_newline_wrap t hhead hlast]

def backtickCand : Json := Json.obj [("a", Json.str "```")]

/-- C3: the three extraction tiers agree on any uniquely-keyed JSON
object whose serialized text contains no backtick character: the bare
text, the json-tagged fence wrap of it, and the untagged fence wrap of
it all extract to the identical parsed object. -/
theorem C3_fence_tiers (ms : List (String × Json))
    (hu : uniqB (Json.obj ms) = true)
    (hb : ∀ c ∈ serVal (Json.obj ms), c ≠ bq) :
    extractJson (serVal (Json.obj ms)) = .ok (Json.obj ms) ∧
    extractJson (wrapJsonFence (serVal (Json.obj ms))) = .ok (Json.obj ms) ∧
    extractJson (wrapFence (serVal (Json.obj ms))) = .ok (Json.obj ms) := by
  have hs : serVal (Json.obj ms) = lbrace :: (serMembers ms ++ [rbrace]) := by
    simp only [serVal, List.cons_append]
  have hhead : ∀ c, (serVal (Json.obj ms)).head? = some c →
      pyIsSpace c = false := by
    intro c hc
    rw [hs] at hc
    simp only [List.head?_cons, Option.some.injEq] at hc
    subst hc
    decide
  have hlast : ∀ c, (serVal (Json.obj ms)).getLast? = some c →
      pyIsSpace c = false := by
    intro c hc
    rw [hs, show lbrace :: (serMembers ms ++ [rbrace]) =
      (lbrace :: serMembers ms) ++ [rbrace] from rfl,
      List.getLast?_concat] at hc
    simp only [Option.some.injEq] at hc
    subst hc
    decide
  have hl : loads (serVal (Json.obj ms)) = .ok (Json.obj ms) :=
    loads_ok _ _ (parseJson_serVal (Json.obj ms) hu)
  refine ⟨extractJson_of_loads_ok _ _ hl, ?_, ?_⟩
  · rw [extractJson_wrapJson (serVal (Json.obj ms)) hb hhead hlast, hl]
  · rw [extractJson_wrapFence (serVal (Json.obj ms)) hb hhead hlast, hl]

/-- C3 witness: the concrete object with one key evaluates through all
three tiers to itself. -/
theorem C3_witness :
    uniqB (Json.obj [("a", Json.str "x")]) = true ∧
    (∀ c ∈ serVal (Json.obj [("a", Json.str "x")]), c ≠ bq) ∧
    (extractJson (serVal (Json.obj [("a", Json.str "x")])) =
       .ok (Json.obj [("a", Json.str "x")]) ∧
     extractJson (wrapJsonFence (serVal (Json.obj [("a", Json.str "x")]))) =
       .ok (Json.obj [("a", Json.str "x")]) ∧
     extractJson (wrapFence (serVal (Json.obj [("a", Json.str "x")]))) =
       .ok (Json.obj [("a", Json.str "x")])) :=
  ⟨by decide, by decide,
    C3_fence_tiers [("a", Json.str "x")] (by decide) (by decide)⟩

/-- C3 counterexample: the object mapping key a to the string of three
backticks parses from its bare serialized text, but its json-tagged
fence wrap fails with a decode error on a truncated document, because
the split on the fence marker cuts inside the string value. -/
theorem C3_counterexample :
    extractJson (serVal backtickCand) = .ok backtickCand ∧
    extractJson (wrapJsonFence (serVal backtickCand)) =
      .error (.jsonDecodeError ("\x7b\"a\": \"".data)) :=
  ⟨by rfl, by rfl⟩
